import Mathlib

/-!
Verification development for the navis-server event-itinerary pipeline
(`src/scout.py`, `src/explorer.py`, `src/planner.py`, `src/api_server.py`).

The Python code passes loosely-typed JSON dictionaries between stages, so the
embedding models JSON values explicitly (`Json`) together with the small set of
Python dict/str primitives the pipeline uses (`.get`, truthiness, f-string
rendering, `str.split`, `int(...)`, `str.lower`, `in`).  Functions that can
raise in Python are modelled in `Except String`; the error payloads mirror the
Python exception messages where a claim depends on them and are otherwise
best-effort descriptions.
-/

/- ## Python-style string primitives (over `List Char`) -/

/-- Characters treated as whitespace by Python's `str.strip()` / `int(str)`
(ASCII subset; Python also strips some further Unicode whitespace, which no
provider string in scope contains). -/
def isPySpaceChar (c : Char) : Bool :=
  c = ' ' || c = '\t' || c = '\n' || c = '\r' || c = '\x0b' || c = '\x0c'

/-- Python `str.strip()` on a character list. -/
def pyStripChars (cs : List Char) : List Char :=
  ((cs.dropWhile isPySpaceChar).reverse.dropWhile isPySpaceChar).reverse

/-- Python `s.split(sep)` for a one-character separator: splits on every
occurrence, `"".split(sep) == [""]`. -/
def pySplit (sep : Char) : List Char → List (List Char)
  | [] => [[]]
  | c :: cs =>
    let r := pySplit sep cs
    if c = sep then [] :: r
    else
      match r with
      | [] => [[c]]
      | h :: t => (c :: h) :: t

/-- Python `str.lower()` (ASCII case mapping; the fixed keyword lists and the
event fields in scope are ASCII). -/
def pyLower (s : String) : String :=
  String.mk (s.toList.map Char.toLower)

/-- Python `pat in s` substring containment. -/
def strContains (s pat : String) : Bool :=
  let sl := s.toList
  let pl := pat.toList
  (List.range (sl.length + 1)).any (fun i => pl.isPrefixOf (sl.drop i))

/-- Digit run with the single-underscore grouping Python's `int(str)` accepts:
nonempty, starts and ends with a digit, no two consecutive underscores, every
character a digit or `_`.  Returns the numeric value. -/
def pyIntDigits (cs : List Char) : Option Nat :=
  let ok :=
    !cs.isEmpty &&
    cs.all (fun c => c.isDigit || c = '_') &&
    (match cs with
     | '_' :: _ => false
     | _ => true) &&
    (match cs.reverse with
     | '_' :: _ => false
     | _ => true) &&
    (cs.zip cs.tail).all (fun p => !(p.1 = '_' && p.2 = '_'))
  if ok then
    some (cs.foldl (fun acc c => if c.isDigit then acc * 10 + (c.toNat - 48) else acc) 0)
  else none

/-- Python `int(s)` on a string: strip whitespace, optional sign, decimal
digits with underscore grouping; `none` models `ValueError`. -/
def pyInt (s : String) : Option Int :=
  match pyStripChars s.toList with
  | '+' :: r => (pyIntDigits r).map Int.ofNat
  | '-' :: r => (pyIntDigits r).map (fun n => -(n : Int))
  | r => (pyIntDigits r).map Int.ofNat

/- ## JSON values -/

/-- Parsed JSON values.  Numbers keep their source lexeme: no pipeline stage in
scope computes with a numeric field, and claims only exercise string-typed
fields, so numeric value semantics (int vs float) are not modelled. -/
inductive Json where
  | null : Json
  | bool (b : Bool) : Json
  | num (lexeme : String) : Json
  | str (s : String) : Json
  | arr (elems : List Json) : Json
  | obj (fields : List (String × Json)) : Json

/- Python's `str()`/`repr()` rendering of a value, used only inside f-string
interpolation of dict fields.  String escaping inside `repr` of containers is
not reproduced (no claim exercises it); numbers render as their lexeme, exact
for canonical integer lexemes. -/
mutual
def pyRepr : Json → String
  | .null => "None"
  | .bool true => "True"
  | .bool false => "False"
  | .num lx => lx
  | .str s => "'" ++ s ++ "'"
  | .arr xs => "[" ++ pyReprElems xs ++ "]"
  | .obj fs => "\x7b" ++ pyReprFields fs ++ "\x7d"
def pyReprElems : List Json → String
  | [] => ""
  | [x] => pyRepr x
  | x :: y :: xs => pyRepr x ++ ", " ++ pyReprElems (y :: xs)
def pyReprFields : List (String × Json) → String
  | [] => ""
  | [(k, v)] => "'" ++ k ++ "': " ++ pyRepr v
  | (k, v) :: f :: fs => "'" ++ k ++ "': " ++ pyRepr v ++ ", " ++ pyReprFields (f :: fs)
end

/-- Python `f"{x}"` rendering of an optional dict-field value (`None` for a
missing key or JSON null). -/
def pyStr : Option Json → String
  | none => "None"
  | some .null => "None"
  | some (.str s) => s
  | some j => pyRepr j

/-- Lookup in a JSON object's field list with Python-dict semantics: a
duplicated key reads as its last occurrence. -/
def lookupLast (fields : List (String × Json)) (k : String) : Option Json :=
  fields.foldl (fun acc p => if p.1 = k then some p.2 else acc) none

/-- `d.get(k)` when `d` is known (or required by a theorem) to be a dict;
returns `none` for a missing key.  Non-objects yield `none`; the `Except`
variants below are used wherever Python would raise there. -/
def jGet : Json → String → Option Json
  | .obj fs, k => lookupLast fs k
  | _, _ => none

/-- `j.get(k)` with Python's `AttributeError` when `j` is not a dict. -/
def jGetE (j : Json) (k : String) : Except String (Option Json) :=
  match j with
  | .obj fs => .ok (lookupLast fs k)
  | _ => .error "AttributeError: object has no attribute get"

/-- `j.get(k, d)`: the default applies only to a *missing* key; an explicit
JSON null is returned as-is. -/
def jGetDE (j : Json) (k : String) (d : Json) : Except String Json :=
  match j with
  | .obj fs => .ok ((lookupLast fs k).getD d)
  | _ => .error "AttributeError: object has no attribute get"

/-- `j[k]` subscription: `KeyError` on a missing key, `TypeError` on a
non-dict. -/
def jIndexE (j : Json) (k : String) : Except String Json :=
  match j with
  | .obj fs =>
    match lookupLast fs k with
    | some v => .ok v
    | none => .error ("KeyError: " ++ k)
  | _ => .error "TypeError: value is not subscriptable by a string key"

/-- Digits of a number lexeme's mantissa (everything before an exponent). -/
def numMantissaDigits (lx : String) : List Char :=
  (lx.toList.takeWhile (fun c => c ≠ 'e' && c ≠ 'E')).filter Char.isDigit

/-- Python truthiness of a JSON value (`bool(x)`): null/False/0/empty
string/empty list/empty dict are falsy.  A numeric lexeme is falsy exactly
when its mantissa digits are all `0`; `NaN`/`Infinity` (no digits in scope of
the zero test) stay truthy. -/
def jTruthy : Json → Bool
  | .null => false
  | .bool b => b
  | .str s => !s.toList.isEmpty
  | .arr l => !l.isEmpty
  | .obj fs => !fs.isEmpty
  | .num lx =>
    let m := numMantissaDigits lx
    m.isEmpty || m.any (fun c => c ≠ '0')

/- ## JSON parsing (`json.loads`) -/

/-- JSON structural whitespace. -/
def jWs (c : Char) : Bool :=
  c = ' ' || c = '\t' || c = '\n' || c = '\r'

def skipWs : List Char → List Char
  | [] => []
  | c :: cs => if jWs c then skipWs cs else c :: cs

def hexDigitVal (c : Char) : Option Nat :=
  if c.isDigit then some (c.toNat - 48)
  else if 'a' ≤ c && c ≤ 'f' then some (c.toNat - 87)
  else if 'A' ≤ c && c ≤ 'F' then some (c.toNat - 55)
  else none

/-- JSON string literal body after the opening quote, strict mode: raw control
characters are rejected, the standard escapes are decoded.  `\uXXXX`
surrogate-pair recombination is not modelled (`Char.ofNat` maps lone
surrogate code points to `'\0'`); every string a claim exercises is ASCII. -/
def parseJStr : List Char → List Char → Option (String × List Char)
  | acc, '"' :: rest => some (String.mk acc.reverse, rest)
  | acc, '\\' :: esc =>
    match esc with
    | '"' :: r => parseJStr ('"' :: acc) r
    | '\\' :: r => parseJStr ('\\' :: acc) r
    | '/' :: r => parseJStr ('/' :: acc) r
    | 'b' :: r => parseJStr ('\x08' :: acc) r
    | 'f' :: r => parseJStr ('\x0c' :: acc) r
    | 'n' :: r => parseJStr ('\n' :: acc) r
    | 'r' :: r => parseJStr ('\r' :: acc) r
    | 't' :: r => parseJStr ('\t' :: acc) r
    | 'u' :: h1 :: h2 :: h3 :: h4 :: r =>
      match hexDigitVal h1, hexDigitVal h2, hexDigitVal h3, hexDigitVal h4 with
      | some x1, some x2, some x3, some x4 =>
        parseJStr (Char.ofNat (((x1 * 16 + x2) * 16 + x3) * 16 + x4) :: acc) r
      | _, _, _, _ => none
    | _ => none
  | acc, c :: rest => if c.toNat < 32 then none else parseJStr (c :: acc) rest
  | _, [] => none

def takeDigits (cs : List Char) : List Char × List Char :=
  (cs.takeWhile Char.isDigit, cs.dropWhile Char.isDigit)

/-- Optional fraction part `.digits` of a JSON number. -/
def lexFrac (cs : List Char) : List Char × List Char :=
  match cs with
  | '.' :: r =>
    let p := takeDigits r
    if p.1.isEmpty then ([], cs) else ('.' :: p.1, p.2)
  | _ => ([], cs)

/-- Optional exponent part `[eE][+-]?digits` of a JSON number. -/
def lexExp (cs : List Char) : List Char × List Char :=
  match cs with
  | e :: r =>
    if e = 'e' || e = 'E' then
      match r with
      | s :: r2 =>
        if s = '+' || s = '-' then
          let p := takeDigits r2
          if p.1.isEmpty then ([], cs) else (e :: s :: p.1, p.2)
        else
          let p := takeDigits r
          if p.1.isEmpty then ([], cs) else (e :: p.1, p.2)
      | [] => ([], cs)
    else ([], cs)
  | [] => ([], cs)

/-- JSON number after an optional minus sign: `0` or nonzero-led digits, then
optional fraction and exponent; returns the consumed lexeme. -/
def lexNumCore (cs : List Char) : Option (List Char × List Char) :=
  match cs with
  | '0' :: r =>
    let f := lexFrac r
    let ex := lexExp f.2
    some ('0' :: (f.1 ++ ex.1), ex.2)
  | c :: _ =>
    if c.isDigit then
      let d := takeDigits cs
      let f := lexFrac d.2
      let ex := lexExp f.2
      some (d.1 ++ f.1 ++ ex.1, ex.2)
    else none
  | [] => none

def lexNumber (cs : List Char) : Option (List Char × List Char) :=
  match cs with
  | '-' :: r => (lexNumCore r).map (fun p => ('-' :: p.1, p.2))
  | _ => lexNumCore cs

/- Recursive-descent JSON value parser, fuel-indexed (the fuel budget passed
by `jsonParse` is always sufficient; CPython itself bounds nesting by its
recursion limit).  Accepts Python's `NaN`/`Infinity`/`-Infinity` extensions.
Duplicate object keys are all retained; reads use `lookupLast`, matching the
last-write-wins construction of a Python dict. -/
mutual
def parseVal : Nat → List Char → Option (Json × List Char)
  | 0, _ => none
  | fuel+1, cs =>
    match skipWs cs with
    | 'n' :: 'u' :: 'l' :: 'l' :: r => some (.null, r)
    | 't' :: 'r' :: 'u' :: 'e' :: r => some (.bool true, r)
    | 'f' :: 'a' :: 'l' :: 's' :: 'e' :: r => some (.bool false, r)
    | 'N' :: 'a' :: 'N' :: r => some (.num "NaN", r)
    | 'I' :: 'n' :: 'f' :: 'i' :: 'n' :: 'i' :: 't' :: 'y' :: r => some (.num "Infinity", r)
    | '-' :: 'I' :: 'n' :: 'f' :: 'i' :: 'n' :: 'i' :: 't' :: 'y' :: r =>
      some (.num "-Infinity", r)
    | '"' :: r => (parseJStr [] r).map (fun p => (.str p.1, p.2))
    | '\x7b' :: r => parseObjBody fuel r
    | '[' :: r => parseArrBody fuel r
    | rest => (lexNumber rest).map (fun p => (.num (String.mk p.1), p.2))
def parseObjBody : Nat → List Char → Option (Json × List Char)
  | 0, _ => none
  | fuel+1, cs =>
    match skipWs cs with
    | '\x7d' :: r => some (.obj [], r)
    | cs' => parseMembers fuel cs' []
def parseMembers : Nat → List Char → List (String × Json) → Option (Json × List Char)
  | 0, _, _ => none
  | fuel+1, cs, acc =>
    match skipWs cs with
    | '"' :: r =>
      match parseJStr [] r with
      | none => none
      | some (k, r1) =>
        match skipWs r1 with
        | ':' :: r2 =>
          match parseVal fuel r2 with
          | none => none
          | some (v, r3) =>
            match skipWs r3 with
            | ',' :: r4 => parseMembers fuel r4 (acc ++ [(k, v)])
            | '\x7d' :: r4 => some (.obj (acc ++ [(k, v)]), r4)
            | _ => none
        | _ => none
    | _ => none
def parseArrBody : Nat → List Char → Option (Json × List Char)
  | 0, _ => none
  | fuel+1, cs =>
    match skipWs cs with
    | ']' :: r => some (.arr [], r)
    | cs' => parseElems fuel cs' []
def parseElems : Nat → List Char → List Json → Option (Json × List Char)
  | 0, _, _ => none
  | fuel+1, cs, acc =>
    match parseVal fuel cs with
    | none => none
    | some (v, r) =>
      match skipWs r with
      | ',' :: r2 => parseElems fuel r2 (acc ++ [v])
      | ']' :: r2 => some (.arr (acc ++ [v]), r2)
      | _ => none
end

/-- `json.loads(s)`: one JSON value surrounded by optional whitespace;
`none` models `json.JSONDecodeError`. -/
def jsonParse (s : String) : Option Json :=
  let cs := s.toList
  match parseVal (4 * cs.length + 8) cs with
  | some (j, rest) => if (skipWs rest).isEmpty then some j else none
  | none => none

/- ## Structured-data extraction (`extract_json` in scout.py / explorer.py) -/

def ciCharEq (a b : Char) : Bool := a.toLower = b.toLower

/-- Case-insensitive literal-prefix test (for the `re.IGNORECASE` fence tag). -/
def ciStarts : List Char → List Char → Bool
  | [], _ => true
  | _ :: _, [] => false
  | p :: ps, c :: cs => ciCharEq p c && ciStarts ps cs

def fenceTag : List Char := ['`', '`', '`', 'j', 's', 'o', 'n']

/-- Scan for the earliest closing ``` fence, returning the characters before
it (the regex's lazy group plus adjacent whitespace, stripped later). -/
def findCloseFence : List Char → List Char → Option (List Char)
  | acc, '`' :: '`' :: '`' :: _ => some acc.reverse
  | acc, c :: cs => findCloseFence (c :: acc) cs
  | _, [] => none

/-- Leftmost match of ```` ```json\s*([\s\S]*?)\s*``` ```` (case-insensitive):
the first position carrying the fence tag that is followed by a closing
fence; returns the raw inner characters. -/
def findFenceFrom : List Char → Option (List Char)
  | [] => none
  | c :: cs =>
    if ciStarts fenceTag (c :: cs) then
      match findCloseFence [] ((c :: cs).drop 7) with
      | some inner => some inner
      | none => findFenceFrom cs
    else findFenceFrom cs

/-- The match of the greedy regex `\{[\s\S]*\}`: the substring from the first
`{` to the last `}`, when the latter comes after the former. -/
def braceSlice (cs : List Char) : Option (List Char) :=
  match cs.dropWhile (fun c => c ≠ '\x7b') with
  | [] => none
  | l =>
    let r := l.reverse.dropWhile (fun c => c ≠ '\x7d')
    if r.isEmpty then none else some r.reverse

/-- `extract_json` from scout.py (`who = "Scout"`) and explorer.py
(`who = "Explorer"`), which differ only in the final error message: direct
parse, then fenced ```json``` block (inner text stripped), then first-`{` to
last-`}` slice; empty input raises before any strategy runs. -/
def extract_json (who : String) (text : String) : Except String Json :=
  if text.toList.isEmpty then .error "Empty response text"
  else
    match jsonParse text with
    | some j => .ok j
    | none =>
      match (findFenceFrom text.toList).bind
          (fun inner => jsonParse (String.mk (pyStripChars inner))) with
      | some j => .ok j
      | none =>
        match (braceSlice text.toList).bind (fun sub => jsonParse (String.mk sub)) with
        | some j => .ok j
        | none => .error ("Could not extract JSON from " ++ who ++ " response")

/- ## Online-Event Filter (`is_online_event`, explorer.py) -/

def onlineKeywords : List String :=
  ["online", "virtual", "remote", "zoom", "webinar", "livestream",
   "google meet", "teams", "webex", "discord", "streaming"]

/-- The comprehension `[f.lower() for f in fields_to_check if f]`: keep truthy
values lower-cased; a truthy non-string raises at `.lower()`. -/
def lowerTruthyFields : List Json → Except String (List String)
  | [] => .ok []
  | f :: fs =>
    if jTruthy f then
      match f with
      | .str s => (lowerTruthyFields fs).map (fun rest => pyLower s :: rest)
      | _ => .error "AttributeError: value has no attribute lower"
    else lowerTruthyFields fs

/-- Python `(x or "").lower()`: any falsy value becomes the empty string, a
truthy non-string raises. -/
def pyOrEmptyLower (v : Json) : Except String String :=
  if jTruthy v then
    match v with
    | .str s => .ok (pyLower s)
    | _ => .error "AttributeError: value has no attribute lower"
  else .ok ""

/-- The test `(not address or address in ["tbd", "online", "virtual"]) and
(not venue or venue in ["online", "virtual", "tbd"])` on the already
lower-cased strings. -/
def tbdCond (address venue : String) : Bool :=
  (address == "" || (["tbd", "online", "virtual"] : List String).contains address) &&
  (venue == "" || (["online", "virtual", "tbd"] : List String).contains venue)

/-- `is_online_event` (explorer.py:99-128).  First the keyword scan over the
truthy members of `[venue, address, name, description]`, then — only when the
`location` value itself is truthy, i.e. a non-empty dict — the empty/TBD
venue-and-address fallback. -/
def is_online_event (event : Json) : Except String Bool := do
  let locJ ← jGetDE event "location" (.obj [])
  let venueRaw ← jGetDE locJ "venue" (.str "")
  let addrRaw ← jGetDE locJ "address" (.str "")
  let nameRaw ← jGetDE event "name" (.str "")
  let descRaw ← jGetDE event "description" (.str "")
  let fields ← lowerTruthyFields [venueRaw, addrRaw, nameRaw, descRaw]
  if fields.any (fun f => onlineKeywords.any (fun kw => strContains f kw)) then
    return true
  else if jTruthy locJ then
    let vOpt ← jGetE locJ "venue"
    let aOpt ← jGetE locJ "address"
    let venue ← pyOrEmptyLower (vOpt.getD .null)
    let address ← pyOrEmptyLower (aOpt.getD .null)
    if tbdCond address venue then
      return true
    else
      return false
  else
    return false

/- ## Event Deduplicator / Sorter (explore_links body, explorer.py:267-280) -/

/-- The composite dedup identity `f"{event.get('name')}-{event.get('start_time')}"`:
a single concatenated string, not the field pair. -/
def eventKey (e : Json) : Except String String := do
  let n ← jGetE e "name"
  let t ← jGetE e "start_time"
  return pyStr n ++ "-" ++ pyStr t

def dedupEventsGo : List String → List Json → List Json → Except String (List Json)
  | _, acc, [] => .ok acc.reverse
  | seen, acc, e :: rest => do
    let k ← eventKey e
    if k ∈ seen then dedupEventsGo seen acc rest
    else dedupEventsGo (k :: seen) (e :: acc) rest

/-- First-occurrence dedup by `eventKey` (the `seen` set loop). -/
def dedupEvents (l : List Json) : Except String (List Json) :=
  dedupEventsGo [] [] l

def sentinelTime : String := "2099-01-01T00:00:00"

/-- The sort key `e.get("start_time", "2099-01-01T00:00:00")`: the default
applies only when the key is missing; an explicit null yields Python `None`. -/
def eventSortKey (e : Json) : Except String Json :=
  jGetDE e "start_time" (.str sentinelTime)

/-- Python `str <=`: code-point lexicographic order. -/
def strLEb : List Char → List Char → Bool
  | [], _ => true
  | _ :: _, [] => false
  | a :: as, b :: bs =>
    if a.val < b.val then true else if b.val < a.val then false else strLEb as bs

def pyStrLE (a b : String) : Bool := strLEb a.toList b.toList

/-- Stable insertion into an ascending-by-key list (equal keys keep arrival
order, as Python's stable sort does). -/
def insertKeyed (p : String × Json) : List (String × Json) → List (String × Json)
  | [] => [p]
  | q :: rest => if pyStrLE q.1 p.1 then q :: insertKeyed p rest else p :: q :: rest

def sortKeyed (l : List (String × Json)) : List (String × Json) :=
  l.foldl (fun acc p => insertKeyed p acc) []

def keyIsStr : Json → Bool
  | .str _ => true
  | _ => false

def keyStr : Json → String
  | .str s => s
  | _ => ""

/-- `unique_events.sort(key=lambda e: e.get("start_time", sentinel))`.
Python raises `TypeError` as soon as two keys of incomparable types are
compared; with at most one element no comparison happens.  All-string key
lists sort by code-point order (Python `str <`).  Key lists containing a
`None` (from a JSON null `start_time`) or other non-string values among two
or more elements are modelled as the `TypeError`; the only non-string key an
event record can produce here is `None`, which Python indeed refuses to
compare with anything. -/
def sortEvents (l : List Json) : Except String (List Json) := do
  let keyed ← l.mapM (fun e => (eventSortKey e).map (fun k => (k, e)))
  if keyed.length ≤ 1 then .ok l
  else if keyed.all (fun p => keyIsStr p.1) then
    .ok ((sortKeyed (keyed.map (fun p => (keyStr p.1, p.2)))).map Prod.snd)
  else .error "TypeError: '<' not supported between instances of 'NoneType' and 'str'"

/- ## Batch Analyzer (explorer.py:158-211, 233-265) -/

/-- `links[i:i+batch_size]` slicing loop with the fixed `batch_size = 5`. -/
def chunksGo : Nat → List Json → List (List Json)
  | 0, _ => []
  | _, [] => []
  | fuel+1, l => l.take 5 :: chunksGo fuel (l.drop 5)

def chunks5 (l : List Json) : List (List Json) := chunksGo l.length l

structure BatchResult where
  success : Bool
  events : Json
  rejected : Json
  analyzed : Option Json
  error : Option String

/-- One entry of `[{"url": link["url"], "reason": str(e)} for link in links]`;
`link["url"]` raises (uncaught, inside the `except` handler) when absent. -/
def tagRejected (reason : String) (link : Json) : Except String Json := do
  let u ← jIndexE link "url"
  return .obj [("url", u), ("reason", .str reason)]

/-- The `except` branch of `analyze_batch`: all the batch's links rejected
with the failure reason, zero events. -/
def batchFailure (links : List Json) (reason : String) : Except String BatchResult := do
  let tagged ← links.mapM (tagRejected reason)
  return ⟨false, .arr [], .arr tagged, none, some reason⟩

def pyHasLen : Json → Bool
  | .str _ => true
  | .arr _ => true
  | .obj _ => true
  | _ => false

/-- `analyze_batch` with the provider call abstracted to its outcome.  Any
exception inside the `try` block — provider failure, extraction failure, a
non-dict extraction result (`.get` AttributeError) or an unsized
`valid_events` (`len` TypeError) — lands in the failure branch; exact
exception texts for the last two are approximated. -/
def analyze_batch (links : List Json) (outcome : Except String String) :
    Except String BatchResult :=
  match outcome with
  | .error e => batchFailure links e
  | .ok t =>
    match extract_json "Explorer" t with
    | .error e => batchFailure links e
    | .ok j =>
      match j with
      | .obj fs =>
        let ve := (lookupLast fs "valid_events").getD (.arr [])
        if pyHasLen ve then
          .ok ⟨true, ve, (lookupLast fs "rejected_links").getD (.arr []),
            some ((lookupLast fs "analyzed_links").getD (.num (toString links.length))), none⟩
        else
          batchFailure links "TypeError: object has no len()"
      | _ => batchFailure links "AttributeError: object has no attribute get"

/-- Python iteration over a value (`extend`/`for` loops): lists yield their
elements, strings their characters, dicts their keys; the rest raise. -/
def pyIterList : Json → Except String (List Json)
  | .arr xs => .ok xs
  | .str s => .ok (s.toList.map (fun c => .str (String.mk [c])))
  | .obj fs => .ok (fs.map (fun p => .str p.1))
  | _ => .error "TypeError: value is not iterable"

/-- `total_analyzed += result["analyzed"]` with integer counts (the
`analyzed_links` default is `len(links)`); non-integer numeric or boolean
counts, which Python would coerce, are outside the shapes in scope. -/
def pyNumAsInt (j : Json) : Except String Int :=
  match j with
  | .num lx =>
    match pyInt lx with
    | some n => .ok n
    | none => .error "TypeError: unsupported operand type for +="
  | _ => .error "TypeError: unsupported operand type for +="

/-- The fan-in loop of `explore_links` (lines 259-265): successful batches
contribute events, rejected links and their analyzed count; failed batches
contribute only their rejected links. -/
def collectResults : List BatchResult → Except String (List Json × List Json × Int)
  | [] => .ok ([], [], 0)
  | r :: rest =>
    if r.success then do
      let evs ← pyIterList r.events
      let rejs ← pyIterList r.rejected
      let a ← pyNumAsInt (r.analyzed.getD (.num "0"))
      let c ← collectResults rest
      return (evs ++ c.1, rejs ++ c.2.1, a + c.2.2)
    else do
      let rejs ← pyIterList r.rejected
      let c ← collectResults rest
      return (c.1, rejs ++ c.2.1, c.2.2)

/-- The online-filter loop: keep events for which `is_online_event` is false. -/
def filterNotOnline : List Json → Except String (List Json)
  | [] => .ok []
  | e :: rest => do
    let b ← is_online_event e
    let r ← filterNotOnline rest
    if b then return r else return e :: r

structure ExploreResult where
  success : Bool
  events : List Json
  total_analyzed : Int
  total_events : Nat
  rejected : List Json

/-- Dedup → sort → online filter → result assembly (explore_links tail). -/
def exploreFinalize (allEvents allRejected : List Json) (totalAnalyzed : Int) :
    Except String ExploreResult := do
  let uniq ← dedupEvents allEvents
  let sorted ← sortEvents uniq
  let inPerson ← filterNotOnline sorted
  return ⟨true, inPerson, totalAnalyzed, inPerson.length, allRejected⟩

/-- `explore_links` with each batch's provider call abstracted to its outcome.
`run_with_concurrency` returns batch results in task order regardless of
completion order (see the executor model below), so the in-order `mapM` is
the faithful fan-in. -/
def explore_links (links : List Json) (provider : Nat → Except String String) :
    Except String ExploreResult :=
  if links.isEmpty then .ok ⟨true, [], 0, 0, []⟩
  else do
    let batches := chunks5 links
    let results ← batches.enum.mapM (fun p => analyze_batch p.2 (provider p.1))
    let c ← collectResults results
    exploreFinalize c.1 c.2.1 c.2.2

/- ## Scout link aggregation (scout.py:113-160, 224-246) -/

structure ScoutTaskResult where
  success : Bool
  interest : String
  links : Json
  error : Option String

/-- `search_for_interest` with the provider call abstracted: any exception in
the `try` block (provider failure, extraction failure, non-dict extraction
result) becomes the failure dict with empty links and the reason string. -/
def search_for_interest (interest : String) (outcome : Except String String) :
    ScoutTaskResult :=
  match outcome with
  | .error e => ⟨false, interest, .arr [], some e⟩
  | .ok t =>
    match extract_json "Scout" t with
    | .error e => ⟨false, interest, .arr [], some e⟩
    | .ok j =>
      match j with
      | .obj fs => ⟨true, interest, (lookupLast fs "links").getD (.arr []), none⟩
      | _ => ⟨false, interest, .arr [], some "AttributeError: object has no attribute get"⟩

/-- Insert-or-overwrite of one key in a Python dict's entry list: an existing
key keeps its position and takes the new value, a new key appends. -/
def dictInsert (fs : List (String × Json)) (k : String) (v : Json) : List (String × Json) :=
  if fs.any (fun p => p.1 = k) then
    fs.map (fun p => if p.1 = k then (k, v) else p)
  else fs ++ [(k, v)]

/-- Collapse the raw (possibly key-duplicating) parsed field list to Python
dict shape: last write wins, first occurrence keeps the position. -/
def pyDictOfPairs (fs : List (String × Json)) : List (String × Json) :=
  fs.foldl (fun acc p => dictInsert acc p.1 p.2) []

/-- The tagging merge `{**link, "interest": ..., "date": link.get("event_date",
start_date), "searched_at": ...}` (scout.py:229-234); `**` of a non-mapping
raises. -/
def scoutTagLink (interest startDate now : String) (link : Json) : Except String Json :=
  match link with
  | .obj fs =>
    let base := pyDictOfPairs fs
    let base1 := dictInsert base "interest" (.str interest)
    let base2 := dictInsert base1 "date" ((lookupLast fs "event_date").getD (.str startDate))
    .ok (.obj (dictInsert base2 "searched_at" (.str now)))
  | _ => .error "TypeError: argument after ** must be a mapping"

/-- The flattening loop: each result with a truthy `links` value contributes
its tagged links, in result order. -/
def scoutFlatten (results : List ScoutTaskResult) (startDate now : String) :
    Except String (List Json) :=
  match results with
  | [] => .ok []
  | r :: rest => do
    let tagged ←
      if jTruthy r.links then do
        let raw ← pyIterList r.links
        raw.mapM (scoutTagLink r.interest startDate now)
      else pure []
    let more ← scoutFlatten rest startDate now
    return tagged ++ more

/-- Hash/equality key of a url value for the `seen_urls` set: sets require a
hashable value; cross-type numeric equality (`5 == 5.0`) is not modelled —
every url in scope is a string. -/
def urlHashKey (u : Json) : Except String String :=
  match u with
  | .str s => .ok ("s:" ++ s)
  | .null => .ok "null"
  | .bool b => .ok (if b then "b1" else "b0")
  | .num lx => .ok ("n:" ++ lx)
  | _ => .error "TypeError: unhashable type"

def scoutDedupGo : List String → List Json → List Json → Except String (List Json)
  | _, acc, [] => .ok acc.reverse
  | seen, acc, link :: rest => do
    let u ← jIndexE link "url"
    let k ← urlHashKey u
    if k ∈ seen then scoutDedupGo seen acc rest
    else scoutDedupGo (k :: seen) (link :: acc) rest

/-- First-occurrence URL dedup (`seen_urls` loop, scout.py:236-243);
`link["url"]` raises on a missing key. -/
def scoutDedup (links : List Json) : Except String (List Json) :=
  scoutDedupGo [] [] links

structure ScoutResults where
  search_results : List ScoutTaskResult
  all_links : List Json
  total_links_found : Nat

/-- `scout_events` with per-interest provider outcomes; `datetime.now()` is
passed in as `now` (its value never affects any claim). -/
def scout_events (interests : List String) (startDate now : String)
    (provider : Nat → Except String String) : Except String ScoutResults := do
  let results := interests.enum.map (fun p => search_for_interest p.2 (provider p.1))
  let flat ← scoutFlatten results startDate now
  let uniq ← scoutDedup flat
  return ⟨results, uniq, uniq.length⟩

/- ## Calendar dates (datetime.fromisoformat / timedelta(days=1) / strftime) -/

structure Date where
  year : Nat
  month : Nat
  day : Nat
deriving DecidableEq, Repr

def isLeapYear (y : Nat) : Bool :=
  y % 4 = 0 && (y % 100 ≠ 0 || y % 400 = 0)

def daysInMonth (y m : Nat) : Nat :=
  if m = 2 then (if isLeapYear y then 29 else 28)
  else if m = 4 ∨ m = 6 ∨ m = 9 ∨ m = 11 then 30
  else 31

/-- The dates `datetime` can hold: year 1-9999, real month and day. -/
def Date.Valid (d : Date) : Prop :=
  1 ≤ d.year ∧ d.year ≤ 9999 ∧ 1 ≤ d.month ∧ d.month ≤ 12 ∧
    1 ≤ d.day ∧ d.day ≤ daysInMonth d.year d.month

instance (d : Date) : Decidable d.Valid := by
  unfold Date.Valid
  infer_instance

def digitsToNat (cs : List Char) : Nat :=
  cs.foldl (fun a c => a * 10 + (c.toNat - 48)) 0

/-- `datetime.fromisoformat` restricted to the `YYYY-MM-DD` calendar-date form
the pipeline's query dates use (the Python function also accepts full
datetimes); `none` models `ValueError`, including out-of-range components. -/
def parseDate (s : String) : Option Date :=
  match s.toList with
  | [y1, y2, y3, y4, '-', m1, m2, '-', d1, d2] =>
    if [y1, y2, y3, y4, m1, m2, d1, d2].all Char.isDigit then
      let y := digitsToNat [y1, y2, y3, y4]
      let m := digitsToNat [m1, m2]
      let d := digitsToNat [d1, d2]
      if 1 ≤ y ∧ 1 ≤ m ∧ m ≤ 12 ∧ 1 ≤ d ∧ d ≤ daysInMonth y m then some ⟨y, m, d⟩
      else none
    else none
  | _ => none

def digitChar (n : Nat) : Char := Char.ofNat (48 + n % 10)

/-- `current.strftime("%Y-%m-%d")`: zero-padded 4-2-2 rendering.  (glibc's
`%Y` does not zero-pad years below 1000; that platform nuance affects no date
a claim touches and is modelled as the documented padded form.) -/
def renderDate (d : Date) : String :=
  String.mk [digitChar (d.year / 1000), digitChar (d.year / 100), digitChar (d.year / 10),
    digitChar d.year, '-', digitChar (d.month / 10), digitChar d.month, '-',
    digitChar (d.day / 10), digitChar d.day]

/-- `datetime` comparison: componentwise lexicographic order. -/
def dateLE (a b : Date) : Bool :=
  a.year < b.year ||
    (a.year = b.year &&
      (a.month < b.month || (a.month = b.month && a.day ≤ b.day)))

/-- `current += timedelta(days=1)` with month and year rollover. -/
def nextDay (d : Date) : Date :=
  if d.day < daysInMonth d.year d.month then ⟨d.year, d.month, d.day + 1⟩
  else if d.month < 12 then ⟨d.year, d.month + 1, 1⟩
  else ⟨d.year + 1, 1, 1⟩

def monthOffset : Nat → Nat
  | 1 => 0
  | 2 => 31
  | 3 => 59
  | 4 => 90
  | 5 => 120
  | 6 => 151
  | 7 => 181
  | 8 => 212
  | 9 => 243
  | 10 => 273
  | 11 => 304
  | 12 => 334
  | _ => 365

def daysBeforeMonth (y m : Nat) : Nat :=
  monthOffset m + (if 3 ≤ m ∧ isLeapYear y then 1 else 0)

def daysBeforeYear (y : Nat) : Nat :=
  365 * (y - 1) + (y - 1) / 4 - (y - 1) / 100 + (y - 1) / 400

/-- Proleptic-Gregorian day ordinal, the measure that makes `nextDay` a
successor on valid dates. -/
def toOrd (d : Date) : Nat :=
  daysBeforeYear d.year + daysBeforeMonth d.year d.month + d.day

/-- The `while current <= end` enumeration loop, fuel-indexed; `dateRange`
supplies exactly as much fuel as the loop iterates on valid dates.  The loop
body runs before the increment, and incrementing `datetime`'s largest date
9999-12-31 raises `OverflowError`, so a range ending on that date raises
after filling its buckets. -/
def dateRangeGo : Nat → Date → Date → Except String (List Date)
  | 0, _, _ => .ok []
  | fuel+1, cur, e =>
    if dateLE cur e then
      if cur = ⟨9999, 12, 31⟩ then .error "OverflowError: date value out of range"
      else (dateRangeGo fuel (nextDay cur) e).map (cur :: ·)
    else .ok []

def dateRange (s e : Date) : Except String (List Date) :=
  dateRangeGo (toOrd e + 1 - toOrd s) s e

/- ## Coverage Analyzer (analyze_event_coverage: planner.py:154-196 and the
identical copy api_server.py:152-194, modelled once) -/

structure CoverageDay where
  count : Nat
  events : List Json
  has_morning : Bool
  has_afternoon : Bool
  has_evening : Bool

/-- `grouped[event_date].append(event)` — the generated keys are pairwise
distinct, so updating every matching entry updates exactly one. -/
def updateGrouped (g : List (String × List Json)) (k : String) (e : Json) :
    List (String × List Json) :=
  g.map (fun p => if p.1 = k then (p.1, p.2 ++ [e]) else p)

/-- The grouping loop: events with a truthy `start_time` whose date portion
(text before the first `T`) is an initialized key are appended there; a
truthy non-string `start_time` would raise at `.split`. -/
def assignEvents : List (String × List Json) → List Json →
    Except String (List (String × List Json))
  | g, [] => .ok g
  | g, e :: rest => do
    let st ← jGetE e "start_time"
    let stv := st.getD .null
    if jTruthy stv then
      match stv with
      | .str s =>
        let ed := String.mk ((pySplit 'T' s.toList).headD [])
        if g.any (fun p => p.1 = ed) then assignEvents (updateGrouped g ed e) rest
        else assignEvents g rest
      | _ => .error "AttributeError: value has no attribute split"
    else assignEvents g rest

/-- The hour read `int(e["start_time"].split("T")[1].split(":")[0])` inside
`has_time_slot`; the `except (KeyError, IndexError, ValueError)` maps a
missing key, a missing `T`-part or a non-numeric hour to a skip.  (A
non-string `start_time` cannot reach this point: the grouping loop would
already have raised on it.) -/
def parseHourEv (e : Json) : Option Int :=
  match jGet e "start_time" with
  | some (.str s) =>
    match pySplit 'T' s.toList with
    | _ :: t :: _ => pyInt (String.mk ((pySplit ':' t).headD []))
    | _ => none
  | _ => none

def has_time_slot (evs : List Json) (startHour endHour : Int) : Bool :=
  evs.any (fun e =>
    match parseHourEv e with
    | some h => decide (startHour ≤ h ∧ h < endHour)
    | none => false)

def mkCoverage (g : List (String × List Json)) : List (String × CoverageDay) :=
  g.map (fun p =>
    (p.1, ⟨p.2.length, p.2, has_time_slot p.2 8 12, has_time_slot p.2 12 17,
      has_time_slot p.2 17 24⟩))

/-- `analyze_event_coverage`: initialize one bucket per calendar date of the
inclusive range, group events by the date portion of `start_time`, then
compute count and morning/afternoon/evening slot flags per bucket. -/
def analyze_event_coverage (events : List Json) (startDate endDate : String) :
    Except String (List (String × CoverageDay)) := do
  let ds ← match parseDate startDate with
    | some d => Except.ok d
    | none => Except.error "ValueError: invalid isoformat string"
  let de ← match parseDate endDate with
    | some d => Except.ok d
    | none => Except.error "ValueError: invalid isoformat string"
  let range ← dateRange ds de
  let keys := range.map renderDate
  let g ← assignEvents (keys.map (fun k => (k, ([] : List Json)))) events
  return mkCoverage g

/- ## Pipeline Orchestrator (generate_itinerary, api_server.py:197-278) -/

inductive FinalOutcome where
  | noResults (message : String) : FinalOutcome
  | done (events : List Json) (coverage : List (String × CoverageDay))
      (linksFound : Nat) (searchesPerformed : Nat) (linksAnalyzed : Int)
      (eventsExtracted : Nat) (linksRejected : Nat) : FinalOutcome

def FinalOutcome.isNoResults : FinalOutcome → Bool
  | .noResults _ => true
  | .done _ _ _ _ _ _ _ => false

/-- `generate_itinerary`: Scout, the empty-links early return (`success:
False`, empty events, message — a returned value, not an exception), then
Explorer, the re-sort by the same start-time key, and coverage. -/
def generate_itinerary (interests : List String) (startDate endDate now : String)
    (scoutProvider exploreProvider : Nat → Except String String) :
    Except String FinalOutcome := do
  let sres ← scout_events interests startDate now scoutProvider
  if sres.all_links.isEmpty then
    return .noResults "No event links found during search"
  else
    let er ← explore_links sres.all_links exploreProvider
    let sorted ← sortEvents er.events
    let cov ← analyze_event_coverage sorted startDate endDate
    return .done sorted cov sres.total_links_found sres.search_results.length
      er.total_analyzed er.total_events er.rejected.length

/- ## Bounded Fan-Out Executor (run_with_concurrency: scout.py:163-171,
explorer.py:203-211)

`asyncio.gather(*(run_task(t) for t in tasks))` with a `Semaphore(limit)`:
an interleaving model.  A task is a pair of its input index and its eventual
outcome (the coroutine's returned value or captured failure — both callers
convert exceptions into result values).  A `start` step admits the next
pending task when fewer than `K` are in flight (the semaphore wakes waiters
in FIFO = input order); a `finish j` step completes any in-flight task —
completion order is unconstrained.  `gather` then reads results back by input
index. -/

inductive ExecStep where
  | start : ExecStep
  | finish : Nat → ExecStep

structure ExecState (α : Type) where
  pending : List (Nat × α)
  running : List (Nat × α)
  finished : List (Nat × α)

def stepExec (K : Nat) (st : ExecStep) (s : ExecState α) : Option (ExecState α) :=
  match st with
  | .start =>
    match s.pending with
    | [] => none
    | t :: rest =>
      if s.running.length < K then some ⟨rest, s.running ++ [t], s.finished⟩ else none
  | .finish j =>
    match s.running[j]? with
    | none => none
    | some t => some ⟨s.pending, s.running.eraseIdx j, s.finished ++ [t]⟩

def runExec (K : Nat) : List ExecStep → ExecState α → Option (ExecState α)
  | [], s => some s
  | st :: sts, s =>
    match stepExec K st s with
    | none => none
    | some s' => runExec K sts s'

def initExec (tasks : List α) : ExecState α := ⟨tasks.enum, [], []⟩

/-- All tasks have run to completion. -/
def ExecFinished (s : ExecState α) : Prop := s.pending = [] ∧ s.running = []

/-- `asyncio.gather`'s fan-in: the i-th result slot holds the outcome of the
i-th input task. -/
def gatherExec (n : Nat) (s : ExecState α) : List (Option α) :=
  (List.range n).map (fun i => (s.finished.find? (fun p => p.1 == i)).map Prod.snd)

/-- One completing schedule: start a task, let it finish, repeat. -/
def seqSchedule : Nat → List ExecStep
  | 0 => []
  | n+1 => .start :: .finish 0 :: seqSchedule n

/- ## Shape predicates and spec-side readers used in theorem statements -/

/-- A dict field that is a string, an explicit null, or absent — the shapes an
EventRecord string field can take. -/
def strFieldOk : Option Json → Bool
  | none => true
  | some .null => true
  | some (.str _) => true
  | _ => false

/-- The string the spec reads from an optional field (empty for missing or
null). -/
def fieldString : Option Json → String
  | some (.str s) => s
  | _ => ""

/-- EventRecord shape for the online filter: a dict with string/null/absent
name and description, and a location that is absent or a dict with
string/null/absent venue and address. -/
def onlineFilterWF (e : Json) : Bool :=
  match e with
  | .obj fs =>
    strFieldOk (lookupLast fs "name") && strFieldOk (lookupLast fs "description") &&
    (match lookupLast fs "location" with
     | none => true
     | some (.obj lfs) =>
       strFieldOk (lookupLast lfs "venue") && strFieldOk (lookupLast lfs "address")
     | _ => false)
  | _ => false

/-- Claim C6(a): one of venue/address/name/description, lower-cased, contains
one of the fixed keywords. -/
def keywordHit (e : Json) : Bool :=
  let loc := (jGet e "location").getD (.obj [])
  ([fieldString (jGet loc "venue"), fieldString (jGet loc "address"),
    fieldString (jGet e "name"), fieldString (jGet e "description")]).any
    (fun f => onlineKeywords.any (fun kw => strContains (pyLower f) kw))

/-- What the code's fallback branch actually requires: a present non-empty
location dict whose address and venue are empty or TBD-like. -/
def locFallback (e : Json) : Bool :=
  match jGet e "location" with
  | some (.obj lfs) =>
    !lfs.isEmpty &&
      tbdCond (pyLower (fieldString (lookupLast lfs "address")))
        (pyLower (fieldString (lookupLast lfs "venue")))
  | _ => false

/-- Claim C6's branch (b) exactly as stated: address and venue read with empty
defaults, with no requirement that any location information be present. -/
def claimFallbackCond (e : Json) : Bool :=
  let loc := (jGet e "location").getD (.obj [])
  tbdCond (pyLower (fieldString (jGet loc "address")))
    (pyLower (fieldString (jGet loc "venue")))

/-- Event shape for the coverage analyzer: a dict whose `start_time` is a
string, null or absent. -/
def covEventWF (e : Json) : Bool :=
  match e with
  | .obj fs => strFieldOk (lookupLast fs "start_time")
  | _ => false

/-- The date portion of an event's start time: the text before the first `T`
of a truthy string-valued `start_time`. -/
def eventDatePortion (e : Json) : Option String :=
  match jGet e "start_time" with
  | some (.str s) =>
    if s.toList.isEmpty then none
    else some (String.mk ((pySplit 'T' s.toList).headD []))
  | _ => none

/-- A link that can be tagged into the rejected list (`link["url"]` exists). -/
def linkHasUrl (l : Json) : Bool :=
  match l with
  | .obj fs => (lookupLast fs "url").isSome
  | _ => false

/-- The rejected entries a failed batch contributes: every link of the batch,
tagged with the failure reason. -/
def taggedRejects (links : List Json) (reason : String) : List Json :=
  links.map (fun l => .obj [("url", (jGet l "url").getD .null), ("reason", .str reason)])

def arrOf : Json → List Json
  | .arr xs => xs
  | _ => []

/-- The events a batch contributes to the fan-in (none when it failed). -/
def batchEvents (r : BatchResult) : List Json :=
  if r.success then arrOf r.events else []

/-- The rejected links a batch contributes to the fan-in. -/
def batchRejected (r : BatchResult) : List Json := arrOf r.rejected

def batchAnalyzed (r : BatchResult) : Int :=
  if r.success then
    match r.analyzed with
    | some (.num lx) => (pyInt lx).getD 0
    | _ => 0
  else 0

/-- Shape under which the fan-in loop cannot raise: rejected lists are lists,
and successful batches carry list events and an integer analyzed count. -/
def collectWF (r : BatchResult) : Bool :=
  (match r.rejected with
   | .arr _ => true
   | _ => false) &&
  (!r.success ||
    ((match r.events with
      | .arr _ => true
      | _ => false) &&
     (match r.analyzed with
      | some (.num lx) => (pyInt lx).isSome
      | _ => false)))

def eventKeyOf (e : Json) : Option String := (eventKey e).toOption

/-- The first element of `l` that shares `e`'s dedup key. -/
def firstWithKey (l : List Json) (e : Json) : Option Json :=
  l.find? (fun x => eventKeyOf x == eventKeyOf e)

/-- A `start_time` the sort key can order: string-valued or absent (an
explicit null breaks the sort — claim C2). -/
def sortTimeOk (e : Json) : Bool :=
  match e with
  | .obj fs =>
    match lookupLast fs "start_time" with
    | none => true
    | some (.str _) => true
    | _ => false
  | _ => false

/-- EventRecord shape that flows through dedup, sort and online filter without
raising. -/
def finalizeEventWF (e : Json) : Bool :=
  onlineFilterWF e && sortTimeOk e

/-- A scout link that survives tagging and URL dedup: a dict with a string
url. -/
def scoutLinkWF (l : Json) : Bool :=
  match l with
  | .obj fs =>
    match lookupLast fs "url" with
    | some (.str _) => true
    | _ => false
  | _ => false

/-- A search result whose `links` value is either falsy or a list of
well-formed links. -/
def scoutResultLinksWF (r : ScoutTaskResult) : Bool :=
  match r.links with
  | .arr xs => xs.all scoutLinkWF
  | v => !jTruthy v

/-- Total form of the tagging merge (equal to `scoutTagLink` on dicts). -/
def scoutTagPure (interest startDate now : String) (link : Json) : Json :=
  match link with
  | .obj fs =>
    .obj (dictInsert
      (dictInsert (dictInsert (pyDictOfPairs fs) "interest" (.str interest))
        "date" ((lookupLast fs "event_date").getD (.str startDate)))
      "searched_at" (.str now))
  | other => other

/-- The tagged links one search result contributes to the flattened sequence. -/
def taggedLinksOf (r : ScoutTaskResult) (startDate now : String) : List Json :=
  if jTruthy r.links then (arrOf r.links).map (scoutTagPure r.interest startDate now) else []

def urlOf (l : Json) : Option Json := jGet l "url"

/-- The URL string of a well-formed link. -/
def urlString (l : Json) : String := fieldString (jGet l "url")

/- ## Concrete fixtures used by counterexamples and witnesses -/

def eventA : Json := .obj [("name", .str "A"), ("start_time", .str "2026-01-02T09:00:00")]

def eventBNull : Json := .obj [("name", .str "B"), ("start_time", .null)]

def eventBMissing : Json := .obj [("name", .str "B")]

def dupEventOne : Json := .obj [("name", .str "A-B"), ("start_time", .str "C")]

def dupEventTwo : Json := .obj [("name", .str "A"), ("start_time", .str "B-C")]

def noLocationEvent : Json :=
  .obj [("name", .str "Chess Night"), ("description", .str "Weekly neighborhood gathering")]

def tbdVenueEvent : Json :=
  .obj [("name", .str "Board Games"),
    ("location", .obj [("venue", .str "TBD"), ("address", .str "")])]

def linkU1 : Json := .obj [("url", .str "https://a/1"), ("title", .str "T1")]

def linkU2 : Json := .obj [("url", .str "https://a/2")]

def linkU1dup : Json := .obj [("url", .str "https://a/1"), ("title", .str "dup")]

def scoutR1 : ScoutTaskResult := ⟨true, "music", .arr [linkU1, linkU2], none⟩

def scoutR2 : ScoutTaskResult := ⟨true, "art", .arr [linkU1dup], none⟩

def linksSix : List Json :=
  [.obj [("url", .str "u1")], .obj [("url", .str "u2")], .obj [("url", .str "u3")],
   .obj [("url", .str "u4")], .obj [("url", .str "u5")], .obj [("url", .str "u6")]]

def eventE : Json := .obj [("name", .str "E"), ("start_time", .str "2026-01-02T09:00:00")]

def goodBatchText : String :=
  "\x7b\"valid_events\": [\x7b\"name\": \"E\", \"start_time\": \"2026-01-02T09:00:00\"\x7d], \"rejected_links\": [], \"analyzed_links\": 1\x7d"

def provBoom : Nat → Except String String :=
  fun j => if j = 0 then .error "boom" else .ok goodBatchText

def scoutText : String := "\x7b\"links\": [\x7b\"url\": \"u1\", \"title\": \"T\"\x7d]\x7d"

def provScout : Nat → Except String String :=
  fun j => if j = 0 then .error "rate limited" else .ok scoutText

def provGood : Nat → Except String String := fun _ => .ok goodBatchText

/- ## Theorems -/

/-- C10: the dedup identity is the single concatenated string
`f"{name}-{start_time}"`, not the field pair: the events
`{"name": "A-B", "start_time": "C"}` and `{"name": "A", "start_time": "B-C"}`
have different names and different start times yet the same key `"A-B-C"`,
and the explorer's deduplicator drops the later one. -/
theorem C10_concat_key_collision :
    eventKey dupEventOne = .ok "A-B-C" ∧
    eventKey dupEventTwo = .ok "A-B-C" ∧
    jGet dupEventOne "name" ≠ jGet dupEventTwo "name" ∧
    jGet dupEventOne "start_time" ≠ jGet dupEventTwo "start_time" ∧
    dedupEvents [dupEventOne, dupEventTwo] = .ok [dupEventOne] := by
  refine ⟨rfl, rfl, ?_, ?_, rfl⟩
  · intro h
    injection h with h1
    injection h1 with h2
    exact absurd h2 (by decide)
  · intro h
    injection h with h1
    injection h1 with h2
    exact absurd h2 (by decide)

/-- C2: at the spec's own scenario — event A with start time
`2026-01-02T09:00:00` and event B with an explicit null start time — the
sort's key function `e.get("start_time", "2099-01-01T00:00:00")` returns
`None` for B (the default applies only to a *missing* key), and comparing
`None` with a string raises `TypeError`; the pipeline does not return
`[A, B]`.  Only an *absent* key receives the sentinel, in which case the
event does sort last as claimed. -/
theorem C2_null_start_time_raises :
    sortEvents [eventA, eventBNull] =
      .error "TypeError: '<' not supported between instances of 'NoneType' and 'str'" ∧
    eventSortKey eventBNull = .ok .null ∧
    eventSortKey eventBMissing = .ok (.str sentinelTime) ∧
    sortEvents [eventBMissing, eventA] = .ok [eventA, eventBMissing] ∧
    sortEvents [eventA, eventBMissing] = .ok [eventA, eventBMissing] :=
  ⟨rfl, rfl, rfl, rfl, rfl⟩

/-- C5 (counterexample): when every extraction strategy fails, `extract_json`
raises `ValueError` with a *fixed* message that does not carry the first ~200
characters of the raw text (two different raw texts produce the identical
failure, and the failure does not contain the input): the `text[:200]`
excerpt the spec describes exists only in `edit_itinerary.py`, not in the
Scout/Explorer extractors. -/
theorem C5_counterexample :
    extract_json "Scout" "raw provider diagnostics ZZZ" =
      .error "Could not extract JSON from Scout response" ∧
    extract_json "Scout" "a different raw text QQQ" =
      .error "Could not extract JSON from Scout response" ∧
    strContains "Could not extract JSON from Scout response" "ZZZ" = false ∧
    extract_json "Explorer" "raw provider diagnostics ZZZ" =
      .error "Could not extract JSON from Explorer response" :=
  ⟨rfl, rfl, rfl, rfl⟩

/-- C5 (amended): for every input text on which all three strategies fail
(whole-text parse, fenced block, brace slice), `extract_json` produces a
failure whose message is the fixed string `Could not extract JSON from
{Scout|Explorer} response` (`Empty response text` for empty input); the
failure does not carry an excerpt of the raw text. -/
theorem C5_fixed_failure_message (who text : String)
    (h1 : jsonParse text = none)
    (h2 : (findFenceFrom text.toList).bind
      (fun inner => jsonParse (String.mk (pyStripChars inner))) = none)
    (h3 : (braceSlice text.toList).bind (fun sub => jsonParse (String.mk sub)) = none) :
    extract_json who text =
      .error (if text.toList.isEmpty then "Empty response text"
        else "Could not extract JSON from " ++ who ++ " response") := by
  simp only [String.toList] at h2 h3
  by_cases he : text.data = []
  · simp [extract_json, String.toList, he]
  · simp [extract_json, String.toList, he, h1, h2, h3]

theorem C5_fixed_failure_message_witness :
    extract_json "Scout" "no json in this text" =
      .error "Could not extract JSON from Scout response" :=
  C5_fixed_failure_message "Scout" "no json in this text" rfl rfl rfl

/- ### C6 helper lemmas -/

theorem pyLower_of_empty {s : String} (h : s.data = []) : pyLower s = "" := by
  unfold pyLower
  rw [String.toList, h]
  rfl

theorem kwAny_empty : (onlineKeywords.any fun kw => strContains "" kw) = false := by decide

theorem strFieldOk_getD {o : Option Json} (h : strFieldOk o = true) :
    strFieldOk (some (o.getD (.str ""))) = true := by
  cases o with
  | none => rfl
  | some v => cases v <;> simp_all [strFieldOk]

theorem fieldString_getD {o : Option Json} (h : strFieldOk o = true) :
    fieldString (some (o.getD (.str ""))) = fieldString o := by
  cases o with
  | none => rfl
  | some v => cases v <;> simp_all [strFieldOk, fieldString]

theorem pyOrEmptyLower_wf {o : Option Json} (h : strFieldOk o = true) :
    pyOrEmptyLower (o.getD .null) = .ok (pyLower (fieldString o)) := by
  cases o with
  | none => rfl
  | some v =>
    cases v with
    | null => rfl
    | str s =>
      by_cases hs : s.data = []
      · have ht : jTruthy (.str s) = false := by simp [jTruthy, String.toList, hs]
        simp [pyOrEmptyLower, Option.getD, ht, fieldString, pyLower_of_empty hs]
      · have ht : jTruthy (.str s) = true := by simp [jTruthy, String.toList, hs]
        simp [pyOrEmptyLower, Option.getD, ht, fieldString]
    | _ => simp [strFieldOk] at h

theorem lowerTruthyFields_wf :
    ∀ (vs : List Json), (∀ v ∈ vs, strFieldOk (some v) = true) →
      lowerTruthyFields vs =
        .ok ((vs.filter (fun v => jTruthy v)).map (fun v => pyLower (fieldString (some v))))
  | [], _ => rfl
  | v :: rest, h => by
    have hr := lowerTruthyFields_wf rest (fun x hx => h x (List.mem_cons_of_mem _ hx))
    have hv := h v (List.mem_cons_self _ _)
    by_cases ht : jTruthy v = true
    · cases v with
      | str s => simp [lowerTruthyFields, ht, hr, List.filter_cons, Except.map, fieldString]
      | null => simp [jTruthy] at ht
      | _ => simp [strFieldOk] at hv
    · have ht' : jTruthy v = false := by simpa using ht
      simp [lowerTruthyFields, ht', hr, List.filter_cons]

theorem anyKw_filter :
    ∀ (vs : List Json), (∀ v ∈ vs, strFieldOk (some v) = true) →
      (((vs.filter (fun v => jTruthy v)).map (fun v => pyLower (fieldString (some v)))).any
        (fun f => onlineKeywords.any (fun kw => strContains f kw))) =
      ((vs.map (fun v => pyLower (fieldString (some v)))).any
        (fun f => onlineKeywords.any (fun kw => strContains f kw)))
  | [], _ => rfl
  | v :: rest, h => by
    have hr := anyKw_filter rest (fun x hx => h x (List.mem_cons_of_mem _ hx))
    have hv := h v (List.mem_cons_self _ _)
    by_cases ht : jTruthy v = true
    · simp [List.filter_cons, ht, hr]
    · have ht' : jTruthy v = false := by simpa using ht
      have hz : pyLower (fieldString (some v)) = "" := by
        cases v with
        | null => rfl
        | str s =>
          have : s.data = [] := by
            simpa [jTruthy, String.toList, List.isEmpty_iff] using ht'
          simp [fieldString, pyLower_of_empty this]
        | _ => simp [strFieldOk] at hv
      simp [List.filter_cons, ht', hr, hz, kwAny_empty]

/-- C6 (counterexample): an event that carries no location information at all
— the claim's branch (b) holds as stated (address and venue both read as
empty) and no keyword occurs — yet `is_online_event` returns false, because
`event.get("location", {})` is an empty (or missing) dict, which is falsy, so
the fallback branch is skipped. -/
theorem C6_counterexample :
    is_online_event noLocationEvent = .ok false ∧
    claimFallbackCond noLocationEvent = true ∧
    keywordHit noLocationEvent = false :=
  ⟨rfl, rfl, rfl⟩

theorem lookupLast_nil (k : String) : lookupLast [] k = none := rfl

theorem fieldString_none : fieldString none = "" := rfl

theorem fieldString_some_str (s : String) : fieldString (some (.str s)) = s := rfl

/-- Characterization of `is_online_event` on EventRecord-shaped inputs, shared
by several claims. -/
theorem is_online_eq_spec (e : Json) (hwf : onlineFilterWF e = true) :
    is_online_event e = .ok (keywordHit e || locFallback e) := by
  cases e with
  | obj fs =>
    simp only [onlineFilterWF, Bool.and_eq_true] at hwf
    obtain ⟨⟨hn, hd⟩, hl⟩ := hwf
    have hn' := strFieldOk_getD hn
    have hd' := strFieldOk_getD hd
    split at hl
    case _ hloc =>
      have hfields := lowerTruthyFields_wf
        [Json.str "", Json.str "", (lookupLast fs "name").getD (.str ""),
          (lookupLast fs "description").getD (.str "")]
        (by
          intro v hv
          fin_cases hv <;> first | rfl | exact hn' | exact hd')
      have hany := anyKw_filter
        [Json.str "", Json.str "", (lookupLast fs "name").getD (.str ""),
          (lookupLast fs "description").getD (.str "")]
        (by
          intro v hv
          fin_cases hv <;> first | rfl | exact hn' | exact hd')
      simp only [is_online_event, jGetDE, hloc, Option.getD_none, lookupLast_nil,
        bind, Except.bind, hfields, hany, List.map_cons, List.map_nil, List.any_cons, List.any_nil,
        keywordHit, locFallback, jGet, fieldString_none, fieldString_some_str,
        fieldString_getD hn, fieldString_getD hd]
      split
      · next hc => simp only [hc, Bool.true_or, pure, Except.pure]
      · next hc =>
        have hc' := eq_false_of_ne_true hc
        rw [hc']
        simp [jTruthy, pure, Except.pure]
    case _ lfs hloc =>
      simp only [Bool.and_eq_true] at hl
      obtain ⟨hv, ha⟩ := hl
      have hv' := strFieldOk_getD hv
      have ha' := strFieldOk_getD ha
      have hargs : ∀ v ∈ [(lookupLast lfs "venue").getD (.str ""),
          (lookupLast lfs "address").getD (.str ""),
          (lookupLast fs "name").getD (.str ""),
          (lookupLast fs "description").getD (.str "")], strFieldOk (some v) = true := by
        intro v hvv
        fin_cases hvv <;> first | exact hv' | exact ha' | exact hn' | exact hd'
      have hfields := lowerTruthyFields_wf _ hargs
      have hany := anyKw_filter _ hargs
      simp only [is_online_event, jGetDE, jGetE, hloc, Option.getD_some,
        bind, Except.bind, hfields, hany, List.map_cons, List.map_nil, List.any_cons, List.any_nil,
        keywordHit, locFallback, jGet, fieldString_none, fieldString_some_str,
        fieldString_getD hn, fieldString_getD hd, fieldString_getD hv, fieldString_getD ha]
      split
      · next hc => simp only [hc, Bool.true_or, pure, Except.pure]
      · next hc =>
        have hc' := eq_false_of_ne_true hc
        rw [hc']
        by_cases hemp : lfs.isEmpty
        · simp [jTruthy, hemp, pure, Except.pure]
        · have hemp' : lfs.isEmpty = false := eq_false_of_ne_true hemp
          simp only [jTruthy, hemp', Bool.not_false, Bool.false_or, Bool.true_and,
            pyOrEmptyLower_wf hv, pyOrEmptyLower_wf ha, bind, Except.bind, if_true]
          cases htc : tbdCond (pyLower (fieldString (lookupLast lfs "address")))
              (pyLower (fieldString (lookupLast lfs "venue"))) <;>
            simp [htc, pure, Except.pure]
    case _ => simp at hl
  | null => simp [onlineFilterWF] at hwf
  | bool b => simp [onlineFilterWF] at hwf
  | num lx => simp [onlineFilterWF] at hwf
  | str s => simp [onlineFilterWF] at hwf
  | arr xs => simp [onlineFilterWF] at hwf

/-- C6 (amended): for every event of EventRecord shape, `is_online_event` is
true iff (a) one of name/description/venue/address, lower-cased, contains one
of the fixed keywords, or (b) a location dict is *present and non-empty* and
its address is empty/tbd/online/virtual while its venue is
empty/online/virtual/tbd.  An event with no location information at all (no
location key, or an empty location dict) is not flagged by branch (b). -/
theorem C6_location_required (e : Json) (hwf : onlineFilterWF e = true) :
    is_online_event e = .ok (keywordHit e || locFallback e) :=
  is_online_eq_spec e hwf

theorem C6_location_required_witness :
    is_online_event tbdVenueEvent = .ok (keywordHit tbdVenueEvent || locFallback tbdVenueEvent) :=
  C6_location_required tbdVenueEvent (by decide)

/- ### Executor lemmas (C3, C9) -/

theorem erase_get_perm {α : Type} :
    ∀ (l : List α) (j : Nat) (t : α), l[j]? = some t → l.Perm (t :: l.eraseIdx j)
  | [], j, t, h => by simp at h
  | a :: rest, 0, t, h => by
    simp at h
    subst h
    rfl
  | a :: rest, j+1, t, h => by
    simp at h
    have ih := erase_get_perm rest j t h
    have h1 : (a :: rest).Perm (a :: (t :: rest.eraseIdx j)) := ih.cons a
    have h2 : (a :: rest).eraseIdx (j+1) = a :: rest.eraseIdx j := rfl
    rw [h2]
    exact h1.trans (List.Perm.swap t a _)

theorem stepExec_content {α : Type} (K : Nat) (st : ExecStep) (s s' : ExecState α)
    (h : stepExec K st s = some s') :
    (s'.pending ++ (s'.running ++ s'.finished)).Perm
      (s.pending ++ (s.running ++ s.finished)) := by
  cases st with
  | start =>
    cases hp : s.pending with
    | nil => simp [stepExec, hp] at h
    | cons t rest =>
      by_cases hK : s.running.length < K
      · simp only [stepExec, hp, if_pos hK, Option.some.injEq] at h
        subst h
        simp only [hp, List.cons_append]
        have h1 : (s.running ++ [t] ++ s.finished).Perm (t :: (s.running ++ s.finished)) := by
          rw [List.append_assoc]
          exact List.perm_middle
        refine (h1.append_left rest).trans ?_
        exact List.perm_middle
      · simp [stepExec, hp, if_neg hK] at h
  | finish j =>
    cases hr : s.running[j]? with
    | none => simp [stepExec, hr] at h
    | some t =>
      simp only [stepExec, hr, Option.some.injEq] at h
      subst h
      simp only []
      have hrp := erase_get_perm s.running j t hr
      have h1 : (s.running.eraseIdx j ++ (s.finished ++ [t])).Perm
          (t :: (s.running.eraseIdx j ++ s.finished)) := by
        rw [← List.append_assoc]
        exact List.perm_append_singleton t _
      have h2 : (s.running ++ s.finished).Perm (t :: (s.running.eraseIdx j ++ s.finished)) :=
        hrp.append_right s.finished
      exact ((h1.append_left s.pending).trans ((h2.append_left s.pending).symm))

theorem runExec_content {α : Type} (K : Nat) :
    ∀ (steps : List ExecStep) (s s' : ExecState α),
      runExec K steps s = some s' →
      (s'.pending ++ (s'.running ++ s'.finished)).Perm
        (s.pending ++ (s.running ++ s.finished))
  | [], s, s', h => by cases h; rfl
  | st :: sts, s, s', h => by
    unfold runExec at h
    cases hst : stepExec K st s with
    | none => rw [hst] at h; cases h
    | some s1 =>
      rw [hst] at h
      exact (runExec_content K sts s1 s' h).trans (stepExec_content K st s s1 hst)

theorem find?_of_nodup_keys {α : Type} :
    ∀ (l : List (Nat × α)) (i : Nat) (v : α),
      (l.map Prod.fst).Nodup → (i, v) ∈ l → l.find? (fun p => p.1 == i) = some (i, v)
  | [], i, v, _, hm => by simp at hm
  | (j, w) :: rest, i, v, hnd, hm => by
    simp only [List.map_cons, List.nodup_cons] at hnd
    by_cases hji : j = i
    · subst hji
      rcases List.mem_cons.mp hm with heq | hmem
      · cases heq
        simp [List.find?]
      · exact absurd (by simpa using List.mem_map_of_mem Prod.fst hmem) hnd.1
    · have hmem : (i, v) ∈ rest := by
        rcases List.mem_cons.mp hm with heq | hmem
        · injection heq with h1 h2; exact absurd h1.symm hji
        · exact hmem
      have hne : ((j, w).1 == i) = false := by simpa using hji
      simp only [List.find?, hne]
      exact find?_of_nodup_keys rest i v hnd.2 hmem

theorem execFinished_perm_enum {α : Type} (tasks : List α) (K : Nat) (steps : List ExecStep)
    (s' : ExecState α) (hrun : runExec K steps (initExec tasks) = some s')
    (hfin : ExecFinished s') : s'.finished.Perm tasks.enum := by
  have hperm := runExec_content K steps (initExec tasks) s' hrun
  obtain ⟨hp, hr⟩ := hfin
  rw [hp, hr] at hperm
  simpa [initExec] using hperm

theorem execFinished_gather {α : Type} (tasks : List α) (K : Nat) (steps : List ExecStep)
    (s' : ExecState α) (hrun : runExec K steps (initExec tasks) = some s')
    (hfin : ExecFinished s') : gatherExec tasks.length s' = tasks.map some := by
  have hperm := execFinished_perm_enum tasks K steps s' hrun hfin
  have hnd : (s'.finished.map Prod.fst).Nodup := by
    have hmp : (s'.finished.map Prod.fst).Perm (tasks.enum.map Prod.fst) := hperm.map Prod.fst
    rw [List.enum_map_fst] at hmp
    exact hmp.nodup_iff.mpr (List.nodup_range _)
  apply List.ext_getElem?
  intro i
  by_cases hi : i < tasks.length
  · have hti : tasks[i]? = some tasks[i] := List.getElem?_eq_getElem hi
    have hmem : (i, tasks[i]) ∈ tasks.enum := by
      have : tasks.enum[i]? = some (i, tasks[i]) := by
        rw [List.getElem?_enum, hti]
        rfl
      exact List.getElem?_mem this
    have hmem' : (i, tasks[i]) ∈ s'.finished := hperm.mem_iff.mpr hmem
    have hfind := find?_of_nodup_keys s'.finished i tasks[i] hnd hmem'
    simp [gatherExec, List.getElem?_map, List.getElem?_range hi, hfind, hti]
  · have h1 : (List.range tasks.length)[i]? = none :=
      List.getElem?_eq_none (by simpa using Nat.le_of_not_lt hi)
    have h2 : tasks[i]? = none := List.getElem?_eq_none (Nat.le_of_not_lt hi)
    simp [gatherExec, List.getElem?_map, h1, h2]

theorem execProgress {α : Type} (K : Nat) (hK : 1 ≤ K) :
    ∀ (p f : List (Nat × α)),
      ∃ s', runExec K (seqSchedule p.length) ⟨p, [], f⟩ = some s' ∧ ExecFinished s'
  | [], f => ⟨⟨[], [], f⟩, rfl, rfl, rfl⟩
  | t :: rest, f => by
    obtain ⟨s', hs, hfin⟩ := execProgress K hK rest (f ++ [t])
    refine ⟨s', ?_, hfin⟩
    have hstep1 : stepExec K .start ⟨t :: rest, [], f⟩ = some ⟨rest, [t], f⟩ := by
      simp [stepExec]
      omega
    have hstep2 : stepExec K (.finish 0) ⟨rest, [t], f⟩ = some ⟨rest, [], f ++ [t]⟩ := by
      simp [stepExec]
    show runExec K (.start :: .finish 0 :: seqSchedule rest.length) _ = _
    simp only [runExec, hstep1, hstep2]
    exact hs

/-- C3: in the bounded fan-out executor model of `run_with_concurrency` +
`asyncio.gather`, every complete execution — whatever the interleaving of
task completions — yields exactly N results, slot i holding the outcome of
input task i (a success value or a captured failure); and regardless of which
tasks fail, a completing schedule exists for any K ≥ 1, so one task's failure
never prevents the siblings from running to completion. -/
theorem C3_gather_in_input_order {V : Type} (tasks : List (Except String V)) (K : Nat)
    (steps : List ExecStep) (s' : ExecState (Except String V))
    (hrun : runExec K steps (initExec tasks) = some s') (hfin : ExecFinished s') :
    gatherExec tasks.length s' = tasks.map some ∧
    (gatherExec tasks.length s').length = tasks.length ∧
    (1 ≤ K → ∃ steps2 s2, runExec K steps2 (initExec tasks) = some s2 ∧ ExecFinished s2) := by
  refine ⟨execFinished_gather tasks K steps s' hrun hfin, by simp [gatherExec], fun hK => ?_⟩
  obtain ⟨s2, h2, hf2⟩ := execProgress K hK tasks.enum []
  exact ⟨seqSchedule tasks.enum.length, s2, h2, hf2⟩

theorem C3_gather_in_input_order_witness :
    gatherExec 2
      (⟨[], [], [(0, Except.ok 1), (1, Except.error "boom")]⟩ : ExecState (Except String Nat)) =
      [Except.ok 1, Except.error "boom"].map some :=
  (C3_gather_in_input_order [Except.ok 1, Except.error "boom"] 1
    [.start, .finish 0, .start, .finish 0] _ rfl ⟨rfl, rfl⟩).1

theorem stepExec_bound {α : Type} (K : Nat) (st : ExecStep) (s s' : ExecState α)
    (h : stepExec K st s = some s') (hb : s.running.length ≤ K) :
    s'.running.length ≤ K := by
  cases st with
  | start =>
    cases hp : s.pending with
    | nil => simp [stepExec, hp] at h
    | cons t rest =>
      by_cases hK : s.running.length < K
      · simp only [stepExec, hp, if_pos hK, Option.some.injEq] at h
        subst h
        simpa using hK
      · simp [stepExec, hp, if_neg hK] at h
  | finish j =>
    cases hr : s.running[j]? with
    | none => simp [stepExec, hr] at h
    | some t =>
      simp only [stepExec, hr, Option.some.injEq] at h
      subst h
      calc (s.running.eraseIdx j).length ≤ s.running.length := by
            simpa using List.length_eraseIdx_le s.running j
        _ ≤ K := hb

theorem runExec_bound {α : Type} (K : Nat) :
    ∀ (steps : List ExecStep) (s s' : ExecState α),
      runExec K steps s = some s' → s.running.length ≤ K → s'.running.length ≤ K
  | [], s, s', h, hb => by cases h; exact hb
  | st :: sts, s, s', h, hb => by
    unfold runExec at h
    cases hst : stepExec K st s with
    | none => rw [hst] at h; cases h
    | some s1 =>
      rw [hst] at h
      exact runExec_bound K sts s1 s' h (stepExec_bound K st s s1 hst hb)

/-- C9: in the executor model, no reachable state ever has more than K tasks
in flight, and a task can only start while strictly fewer than K are running
— a task beyond the bound waits for a semaphore slot. -/
theorem C9_semaphore_bound {α : Type} (K : Nat) (tasks : List α) (steps : List ExecStep)
    (s' : ExecState α) (hrun : runExec K steps (initExec tasks) = some s') :
    s'.running.length ≤ K ∧
    (∀ (s s2 : ExecState α), stepExec K .start s = some s2 → s.running.length < K) := by
  constructor
  · exact runExec_bound K steps (initExec tasks) s' hrun (by simp [initExec])
  · intro s s2 h
    cases hp : s.pending with
    | nil => simp [stepExec, hp] at h
    | cons t rest =>
      by_cases hK : s.running.length < K
      · exact hK
      · simp [stepExec, hp, if_neg hK] at h

theorem C9_semaphore_bound_witness :
    (⟨[(2, 30)], [(1, 20)], [(0, 10)]⟩ : ExecState Nat).running.length ≤ 2 :=
  (C9_semaphore_bound 2 [10, 20, 30] [.start, .start, .finish 0] _ rfl).1

/- ### Python-dict lookup lemmas (scout tagging, C7/C8) -/

theorem lookupFold_acc (k : String) :
    ∀ (h : List (String × Json)) (acc : Option Json),
      h.foldl (fun a p => if p.1 = k then some p.2 else a) acc =
        match h.foldl (fun a p => if p.1 = k then some p.2 else a) none with
        | some v => some v
        | none => acc
  | [], acc => rfl
  | p :: t, acc => by
    simp only [List.foldl_cons]
    rw [lookupFold_acc k t (if p.1 = k then some p.2 else acc),
      lookupFold_acc k t (if p.1 = k then some p.2 else none)]
    cases ht : t.foldl (fun a q => if q.1 = k then some q.2 else a) none with
    | some v => rfl
    | none => by_cases hp : p.1 = k <;> simp [hp]

theorem lookupLast_cons (p : String × Json) (g : List (String × Json)) (k : String) :
    lookupLast (p :: g) k =
      match lookupLast g k with
      | some v => some v
      | none => if p.1 = k then some p.2 else none := by
  unfold lookupLast
  simp only [List.foldl_cons]
  exact lookupFold_acc k g _

theorem lookupLast_no_key (k : String) :
    ∀ (g : List (String × Json)), (∀ q ∈ g, q.1 ≠ k) → lookupLast g k = none
  | [], _ => rfl
  | p :: t, h => by
    rw [lookupLast_cons]
    rw [lookupLast_no_key k t (fun q hq => h q (List.mem_cons_of_mem _ hq))]
    simp [h p (List.mem_cons_self _ _)]

theorem lookupLast_map_upd (k : String) (v : Json) (k' : String) :
    ∀ (g : List (String × Json)),
      lookupLast (g.map (fun p => if p.1 = k then (k, v) else p)) k' =
        if (g.any (fun p => p.1 = k)) ∧ k' = k then some v
        else lookupLast g k'
  | [] => by simp
  | p :: t => by
    simp only [List.map_cons]
    rw [lookupLast_cons, lookupLast_map_upd k v k' t, lookupLast_cons]
    by_cases hk' : k' = k
    · subst hk'
      by_cases hp : p.1 = k'
      · by_cases ht : t.any (fun p => p.1 = k')
        · simp [hp, ht]
        · simp only [ht, hp, List.any_cons, decide_eq_true_eq, and_true, false_and,
            if_false, true_or, if_true, true_and]
          rw [lookupLast_no_key k' t (by
            intro q hq
            by_contra hqk
            exact ht (List.any_eq_true.mpr ⟨q, hq, by simpa using hqk⟩))]
          simp
      · by_cases ht : t.any (fun p => p.1 = k')
        · simp [hp, ht]
        · simp only [ht, hp, List.any_cons, decide_eq_true_eq, and_true, false_and,
            false_or, if_false]
          rw [lookupLast_no_key k' t (by
            intro q hq
            by_contra hqk
            exact ht (List.any_eq_true.mpr ⟨q, hq, by simpa using hqk⟩))]
          simp [hp]
    · by_cases hp : p.1 = k
      · simp only [hp, hk', and_false, if_false]
        have hkk : k ≠ k' := fun h => hk' h.symm
        cases lookupLast t k' <;> simp [hp, hkk]
      · simp only [hk', and_false, if_false, hp, if_neg hp]

theorem lookupLast_dictInsert (g : List (String × Json)) (k : String) (v : Json) (k' : String) :
    lookupLast (dictInsert g k v) k' = if k' = k then some v else lookupLast g k' := by
  unfold dictInsert
  by_cases hmem : g.any (fun p => p.1 = k)
  · simp only [hmem, if_true]
    rw [lookupLast_map_upd]
    by_cases hk' : k' = k <;> simp [hmem, hk']
  · have hmem' : (g.any (fun p => p.1 = k)) = false := eq_false_of_ne_true hmem
    simp only [hmem', Bool.false_eq_true, if_false]
    unfold lookupLast
    rw [List.foldl_append]
    simp only [List.foldl_cons, List.foldl_nil]
    by_cases hk' : k' = k
    · subst hk'
      simp
    · have hkk : ¬ k = k' := fun h => hk' h.symm
      simp [hkk, hk']

theorem lookupLast_insFold (k' : String) :
    ∀ (fs : List (String × Json)) (g : List (String × Json)),
      lookupLast (fs.foldl (fun a p => dictInsert a p.1 p.2) g) k' =
        match lookupLast fs k' with
        | some v => some v
        | none => lookupLast g k'
  | [], g => rfl
  | p :: t, g => by
    simp only [List.foldl_cons]
    rw [lookupLast_insFold k' t (dictInsert g p.1 p.2), lookupLast_cons,
      lookupLast_dictInsert]
    cases lookupLast t k' with
    | some v => rfl
    | none =>
      by_cases hk : k' = p.1
      · simp [hk]
      · have : ¬ p.1 = k' := fun h => hk h.symm
        simp [hk, this]

theorem lookupLast_pyDictOfPairs (fs : List (String × Json)) (k' : String) :
    lookupLast (pyDictOfPairs fs) k' = lookupLast fs k' := by
  unfold pyDictOfPairs
  rw [lookupLast_insFold]
  cases lookupLast fs k' <;> rfl

theorem scoutTagPure_url (i sd now : String) (x : Json) (hx : scoutLinkWF x = true) :
    scoutLinkWF (scoutTagPure i sd now x) = true ∧
    urlString (scoutTagPure i sd now x) = urlString x := by
  cases x with
  | obj fs =>
    have h1 : lookupLast (dictInsert
        (dictInsert (dictInsert (pyDictOfPairs fs) "interest" (.str i))
          "date" ((lookupLast fs "event_date").getD (.str sd)))
        "searched_at" (.str now)) "url" = lookupLast fs "url" := by
      rw [lookupLast_dictInsert, lookupLast_dictInsert, lookupLast_dictInsert,
        lookupLast_pyDictOfPairs]
      simp
    simp only [scoutLinkWF] at hx
    split at hx
    case _ u hurl =>
      refine ⟨?_, ?_⟩
      · simp only [scoutTagPure, scoutLinkWF, h1, hurl]
      · simp only [urlString, jGet, scoutTagPure, h1, hurl]
    case _ => simp at hx
  | null => simp [scoutLinkWF] at hx
  | bool b => simp [scoutLinkWF] at hx
  | num lx => simp [scoutLinkWF] at hx
  | str s => simp [scoutLinkWF] at hx
  | arr xs => simp [scoutLinkWF] at hx

/- ### Scout aggregation lemmas (C7) -/

theorem strAppend_left_cancel {p a b : String} (h : p ++ a = p ++ b) : a = b := by
  have hd : (p ++ a).data = (p ++ b).data := congrArg String.data h
  rw [String.data_append, String.data_append] at hd
  exact congrArg String.mk (List.append_cancel_left hd)

theorem jIndexE_url_wf (x : Json) (hx : scoutLinkWF x = true) :
    jIndexE x "url" = .ok (.str (urlString x)) := by
  cases x with
  | obj fs =>
    simp only [scoutLinkWF] at hx
    split at hx
    case _ u hurl => simp [jIndexE, hurl, urlString, jGet, fieldString]
    case _ => simp at hx
  | null => simp [scoutLinkWF] at hx
  | bool b => simp [scoutLinkWF] at hx
  | num lx => simp [scoutLinkWF] at hx
  | str s => simp [scoutLinkWF] at hx
  | arr xs => simp [scoutLinkWF] at hx

theorem scoutTagLink_ok (i sd now : String) (x : Json) (hx : scoutLinkWF x = true) :
    scoutTagLink i sd now x = .ok (scoutTagPure i sd now x) := by
  cases x with
  | obj fs => rfl
  | null => simp [scoutLinkWF] at hx
  | bool b => simp [scoutLinkWF] at hx
  | num lx => simp [scoutLinkWF] at hx
  | str s => simp [scoutLinkWF] at hx
  | arr xs => simp [scoutLinkWF] at hx

theorem mapM_scoutTag (i sd now : String) :
    ∀ (xs : List Json), (∀ x ∈ xs, scoutLinkWF x = true) →
      xs.mapM (scoutTagLink i sd now) = .ok (xs.map (scoutTagPure i sd now))
  | [], _ => rfl
  | x :: t, h => by
    rw [List.mapM_cons, scoutTagLink_ok i sd now x (h x (List.mem_cons_self _ _)),
      mapM_scoutTag i sd now t (fun y hy => h y (List.mem_cons_of_mem _ hy))]
    rfl

theorem scoutFlatten_ok (sd now : String) :
    ∀ (results : List ScoutTaskResult),
      (∀ r ∈ results, scoutResultLinksWF r = true) →
      scoutFlatten results sd now =
        .ok ((results.map (fun r => taggedLinksOf r sd now)).flatten)
  | [], _ => rfl
  | r :: rest, h => by
    have hr := h r (List.mem_cons_self _ _)
    have ih := scoutFlatten_ok sd now rest (fun y hy => h y (List.mem_cons_of_mem _ hy))
    unfold scoutFlatten
    by_cases ht : jTruthy r.links = true
    · unfold scoutResultLinksWF at hr
      split at hr
      case _ xs heq =>
        simp only [ht, if_true, heq, pyIterList, bind, Except.bind,
          mapM_scoutTag r.interest sd now xs (fun x hx => by
            exact List.all_eq_true.mp hr x hx), ih]
        rw [heq] at ht
        simp [taggedLinksOf, heq, ht, arrOf, pure, Except.pure]
      case _ =>
        rw [ht] at hr
        simp at hr
    · have ht' : jTruthy r.links = false := eq_false_of_ne_true ht
      simp only [ht', Bool.false_eq_true, if_false, ih, bind, Except.bind, pure]
      simp [taggedLinksOf, ht', Except.pure]

theorem scoutDedupGo_spec :
    ∀ (l : List Json) (seen : List String) (acc : List Json),
      (∀ x ∈ l, scoutLinkWF x = true) →
      ∃ out, scoutDedupGo seen acc l = .ok (acc.reverse ++ out) ∧
        out.Sublist l ∧
        (∀ x ∈ out, ("s:" ++ urlString x) ∉ seen ∧
          l.find? (fun y => urlString y == urlString x) = some x) ∧
        (out.map urlString).Nodup ∧
        (∀ x ∈ l, ("s:" ++ urlString x) ∉ seen → ∃ y ∈ out, urlString y = urlString x)
  | [], seen, acc, _ => by
    refine ⟨[], by simp [scoutDedupGo], List.Sublist.refl _, by simp, by simp, by simp⟩
  | e :: rest, seen, acc, h => by
    have he := h e (List.mem_cons_self _ _)
    have hrest : ∀ x ∈ rest, scoutLinkWF x = true :=
      fun y hy => h y (List.mem_cons_of_mem _ hy)
    by_cases hk : ("s:" ++ urlString e) ∈ seen
    · obtain ⟨out, hgo, hsub, hout, hnd, hcomp⟩ := scoutDedupGo_spec rest seen acc hrest
      refine ⟨out, ?_, hsub.cons e, ?_, hnd, ?_⟩
      · simp only [scoutDedupGo, jIndexE_url_wf e he, bind, Except.bind, urlHashKey]
        simp only [hk, if_pos, if_true]
        exact hgo
      · intro x hx
        obtain ⟨hxs, hxf⟩ := hout x hx
        refine ⟨hxs, ?_⟩
        have hne : urlString e ≠ urlString x := by
          intro hEq
          rw [← hEq] at hxs
          exact hxs hk
        rw [List.find?_cons]
        have : (urlString e == urlString x) = false := by simp [hne]
        simp only [this, Bool.false_eq_true, if_false]
        exact hxf
      · intro x hx hxs
        rcases List.mem_cons.mp hx with rfl | hx'
        · exact absurd hk hxs
        · exact hcomp x hx' hxs
    · obtain ⟨out, hgo, hsub, hout, hnd, hcomp⟩ :=
        scoutDedupGo_spec rest (("s:" ++ urlString e) :: seen) (e :: acc) hrest
      refine ⟨e :: out, ?_, hsub.cons₂ e, ?_, ?_, ?_⟩
      · simp only [scoutDedupGo, jIndexE_url_wf e he, bind, Except.bind, urlHashKey]
        simp only [hk, if_neg, if_false]
        rw [hgo]
        simp
      · intro x hx
        rcases List.mem_cons.mp hx with rfl | hx'
        · refine ⟨hk, ?_⟩
          rw [List.find?_cons]
          simp
        · obtain ⟨hxs, hxf⟩ := hout x hx'
          have hxs' : ("s:" ++ urlString x) ∉ seen := fun hmem =>
            hxs (List.mem_cons_of_mem _ hmem)
          have hxk : ("s:" ++ urlString x) ≠ ("s:" ++ urlString e) := fun hEq =>
            hxs (hEq ▸ List.mem_cons_self _ _)
          have hne : urlString e ≠ urlString x := fun hEq => hxk (by rw [hEq])
          refine ⟨hxs', ?_⟩
          rw [List.find?_cons]
          have : (urlString e == urlString x) = false := by simp [hne]
          simp only [this, Bool.false_eq_true, if_false]
          exact hxf
      · rw [List.map_cons, List.nodup_cons]
        refine ⟨?_, hnd⟩
        intro hmem
        obtain ⟨y, hy, hyu⟩ := List.mem_map.mp hmem
        obtain ⟨hys, _⟩ := hout y hy
        exact hys (hyu ▸ List.mem_cons_self _ _)
      · intro x hx hxs
        rcases List.mem_cons.mp hx with rfl | hx'
        · exact ⟨_, List.mem_cons_self _ _, rfl⟩
        · by_cases hxe : ("s:" ++ urlString x) = ("s:" ++ urlString e)
          · exact ⟨_, List.mem_cons_self _ _, (strAppend_left_cancel hxe).symm⟩
          · obtain ⟨y, hy, hyu⟩ := hcomp x hx' (by
              intro hmem
              rcases List.mem_cons.mp hmem with hEq | hmem'
              · exact hxe hEq
              · exact hxs hmem')
            exact ⟨y, List.mem_cons_of_mem _ hy, hyu⟩

theorem scoutDedup_spec (l : List Json) (h : ∀ x ∈ l, scoutLinkWF x = true) :
    ∃ out, scoutDedup l = .ok out ∧ out.Sublist l ∧ (out.map urlString).Nodup ∧
      (∀ x ∈ out, l.find? (fun y => urlString y == urlString x) = some x) ∧
      (∀ x ∈ l, ∃ y ∈ out, urlString y = urlString x) := by
  obtain ⟨out, hgo, hsub, hout, hnd, hcomp⟩ := scoutDedupGo_spec l [] [] h
  exact ⟨out, by simpa [scoutDedup] using hgo, hsub, hnd,
    fun x hx => (hout x hx).2, fun x hx => hcomp x hx (by simp)⟩

theorem flat_tagged_wf (sd now : String) (results : List ScoutTaskResult)
    (h : ∀ r ∈ results, scoutResultLinksWF r = true) :
    ∀ x ∈ (results.map (fun r => taggedLinksOf r sd now)).flatten, scoutLinkWF x = true := by
  intro x hx
  obtain ⟨l, hl, hxl⟩ := List.mem_flatten.mp hx
  obtain ⟨r, hr, rfl⟩ := List.mem_map.mp hl
  unfold taggedLinksOf at hxl
  by_cases ht : jTruthy r.links = true
  · rw [if_pos ht] at hxl
    obtain ⟨y, hy, rfl⟩ := List.mem_map.mp hxl
    have hrw := h r hr
    unfold scoutResultLinksWF at hrw
    split at hrw
    case _ xs heq =>
      rw [heq] at hy
      exact (scoutTagPure_url _ _ _ y
        (List.all_eq_true.mp hrw y (by simpa [arrOf] using hy))).1
    case _ =>
      rw [ht] at hrw
      simp at hrw
  · rw [if_neg ht] at hxl
    simp at hxl

/-- C7: the Link Aggregator flattens the per-interest results into one
sequence in result order (each truthy `links` list tagged in place) and
deduplicates by exact URL equality keeping the first occurrence: in the
output every URL occurs exactly once, the output is an order-preserving
subsequence of the flattened sequence, each surviving link is the *first*
link bearing its URL there, and no URL is lost. -/
theorem C7_url_dedup (results : List ScoutTaskResult) (sd now : String)
    (hwf : ∀ r ∈ results, scoutResultLinksWF r = true) :
    ∃ out,
      scoutFlatten results sd now =
        .ok ((results.map (fun r => taggedLinksOf r sd now)).flatten) ∧
      scoutDedup ((results.map (fun r => taggedLinksOf r sd now)).flatten) = .ok out ∧
      out.Sublist ((results.map (fun r => taggedLinksOf r sd now)).flatten) ∧
      (out.map urlString).Nodup ∧
      (∀ x ∈ out, ((results.map (fun r => taggedLinksOf r sd now)).flatten).find?
        (fun y => urlString y == urlString x) = some x) ∧
      (∀ x ∈ (results.map (fun r => taggedLinksOf r sd now)).flatten,
        ∃ y ∈ out, urlString y = urlString x) := by
  have hflat := scoutFlatten_ok sd now results hwf
  obtain ⟨out, hd, hsub, hnd, hfst, hcomp⟩ :=
    scoutDedup_spec _ (flat_tagged_wf sd now results hwf)
  exact ⟨out, hflat, hd, hsub, hnd, hfst, hcomp⟩

theorem C7_url_dedup_witness :
    ∃ out,
      scoutFlatten [scoutR1, scoutR2] "2026-01-01" "2026-01-01T00:00:00" =
        .ok (([scoutR1, scoutR2].map
          (fun r => taggedLinksOf r "2026-01-01" "2026-01-01T00:00:00")).flatten) ∧
      scoutDedup (([scoutR1, scoutR2].map
        (fun r => taggedLinksOf r "2026-01-01" "2026-01-01T00:00:00")).flatten) = .ok out ∧
      out.Sublist (([scoutR1, scoutR2].map
        (fun r => taggedLinksOf r "2026-01-01" "2026-01-01T00:00:00")).flatten) ∧
      (out.map urlString).Nodup ∧
      (∀ x ∈ out, (([scoutR1, scoutR2].map
        (fun r => taggedLinksOf r "2026-01-01" "2026-01-01T00:00:00")).flatten).find?
        (fun y => urlString y == urlString x) = some x) ∧
      (∀ x ∈ ([scoutR1, scoutR2].map
          (fun r => taggedLinksOf r "2026-01-01" "2026-01-01T00:00:00")).flatten,
        ∃ y ∈ out, urlString y = urlString x) :=
  C7_url_dedup [scoutR1, scoutR2] "2026-01-01" "2026-01-01T00:00:00" (by decide)

/- ## C4: a failed batch rejects all its links; other batches are unaffected -/

theorem tagRejected_ok (reason : String) (l : Json) (h : linkHasUrl l = true) :
    tagRejected reason l =
      .ok (.obj [("url", (jGet l "url").getD .null), ("reason", .str reason)]) := by
  cases l with
  | obj fs =>
    simp only [linkHasUrl] at h
    rw [Option.isSome_iff_exists] at h
    obtain ⟨u, hu⟩ := h
    simp [tagRejected, jIndexE, hu, jGet, bind, Except.bind, pure, Except.pure]
  | null => simp [linkHasUrl] at h
  | bool b => simp [linkHasUrl] at h
  | num lx => simp [linkHasUrl] at h
  | str s => simp [linkHasUrl] at h
  | arr xs => simp [linkHasUrl] at h

theorem mapM_tagRejected (reason : String) :
    ∀ (links : List Json), (∀ l ∈ links, linkHasUrl l = true) →
      links.mapM (tagRejected reason) = .ok (taggedRejects links reason)
  | [], _ => rfl
  | x :: t, h => by
    rw [List.mapM_cons, tagRejected_ok reason x (h x (List.mem_cons_self _ _)),
      mapM_tagRejected reason t (fun y hy => h y (List.mem_cons_of_mem _ hy))]
    rfl

theorem batchFailure_ok (links : List Json) (reason : String)
    (h : ∀ l ∈ links, linkHasUrl l = true) :
    batchFailure links reason =
      .ok ⟨false, .arr [], .arr (taggedRejects links reason), none, some reason⟩ := by
  unfold batchFailure
  rw [mapM_tagRejected reason links h]
  rfl

theorem analyze_batch_fail (links : List Json) (outcome : Except String String) (r : String)
    (hurl : ∀ l ∈ links, linkHasUrl l = true)
    (hfail : outcome = .error r ∨
      ∃ t, outcome = .ok t ∧ extract_json "Explorer" t = .error r) :
    analyze_batch links outcome =
      .ok ⟨false, .arr [], .arr (taggedRejects links r), none, some r⟩ := by
  rcases hfail with rfl | ⟨t, rfl, hex⟩
  · exact batchFailure_ok links r hurl
  · simp only [analyze_batch, hex]
    exact batchFailure_ok links r hurl

theorem collectResults_ok :
    ∀ (results : List BatchResult), (∀ x ∈ results, collectWF x = true) →
      collectResults results = .ok
        ((results.map batchEvents).flatten, (results.map batchRejected).flatten,
          results.foldr (fun x acc => batchAnalyzed x + acc) 0)
  | [], _ => rfl
  | x :: rest, h => by
    have hx := h x (List.mem_cons_self _ _)
    have ih := collectResults_ok rest (fun y hy => h y (List.mem_cons_of_mem _ hy))
    simp only [collectWF, Bool.and_eq_true] at hx
    obtain ⟨hrej, hrest⟩ := hx
    unfold collectResults
    by_cases hs : x.success = true
    · rw [if_pos hs]
      rw [hs] at hrest
      simp only [Bool.not_true, Bool.false_or, Bool.and_eq_true] at hrest
      obtain ⟨hev, hana⟩ := hrest
      split at hrej
      case _ ys heqr =>
        split at hev
        case _ xs heqe =>
          split at hana
          case _ lx heqa =>
            rw [Option.isSome_iff_exists] at hana
            obtain ⟨n, hn⟩ := hana
            simp [heqr, heqe, heqa, hn, ih, pyIterList, pyNumAsInt,
              batchEvents, batchRejected, batchAnalyzed, arrOf, hs,
              bind, Except.bind, pure, Except.pure]
          case _ => simp at hana
        case _ => simp at hev
      case _ => simp at hrej
    · have hs' : x.success = false := eq_false_of_ne_true hs
      rw [if_neg hs]
      split at hrej
      case _ ys heqr =>
        simp [heqr, hs', ih, pyIterList, batchEvents, batchRejected, batchAnalyzed,
          arrOf, bind, Except.bind, pure, Except.pure]
      case _ => simp at hrej

theorem eventKey_obj (fs : List (String × Json)) :
    eventKey (.obj fs) =
      .ok (pyStr (lookupLast fs "name") ++ "-" ++ pyStr (lookupLast fs "start_time")) := rfl

theorem eventKey_ok_of_wf (e : Json) (h : onlineFilterWF e = true) :
    ∃ k, eventKey e = .ok k := by
  cases e with
  | obj fs => exact ⟨_, eventKey_obj fs⟩
  | null => simp [onlineFilterWF] at h
  | bool b => simp [onlineFilterWF] at h
  | num lx => simp [onlineFilterWF] at h
  | str s => simp [onlineFilterWF] at h
  | arr xs => simp [onlineFilterWF] at h

theorem eventKeyOf_eq {e : Json} {k : String} (h : eventKey e = .ok k) :
    eventKeyOf e = some k := by
  simp [eventKeyOf, h, Except.toOption]

theorem dedupEventsGo_spec :
    ∀ (l : List Json) (seen : List String) (acc : List Json),
      (∀ x ∈ l, ∃ k, eventKey x = .ok k) →
      ∃ out, dedupEventsGo seen acc l = .ok (acc.reverse ++ out) ∧
        out.Sublist l ∧
        (∀ x ∈ out, ∀ k, eventKey x = .ok k → k ∉ seen) ∧
        (∀ x ∈ out, l.find? (fun y => eventKeyOf y == eventKeyOf x) = some x) ∧
        (∀ x ∈ l, (∀ k, eventKey x = .ok k → k ∉ seen) →
          l.find? (fun y => eventKeyOf y == eventKeyOf x) = some x → x ∈ out)
  | [], seen, acc, _ =>
    ⟨[], by simp [dedupEventsGo], List.Sublist.refl _, by simp, by simp, by simp⟩
  | e :: rest, seen, acc, h => by
    obtain ⟨ke, hke⟩ := h e (List.mem_cons_self _ _)
    have hkeOf : eventKeyOf e = some ke := eventKeyOf_eq hke
    have hrest : ∀ x ∈ rest, ∃ k, eventKey x = .ok k :=
      fun y hy => h y (List.mem_cons_of_mem _ hy)
    by_cases hk : ke ∈ seen
    · obtain ⟨out, hgo, hsub, hseen, hfst, hcomp⟩ := dedupEventsGo_spec rest seen acc hrest
      refine ⟨out, ?_, hsub.cons e, hseen, ?_, ?_⟩
      · simp only [dedupEventsGo, hke, bind, Except.bind]
        simp only [hk, if_pos, if_true]
        exact hgo
      · intro x hx
        obtain ⟨kx, hkx⟩ := hrest x (hsub.subset hx)
        have hkxOf := eventKeyOf_eq hkx
        have hxnot := hseen x hx kx hkx
        have hne : ke ≠ kx := fun hEq => hxnot (hEq ▸ hk)
        have hbe : (eventKeyOf e == eventKeyOf x) = false := by
          rw [hkeOf, hkxOf]; simpa using hne
        rw [List.find?_cons]
        simp only [hbe, Bool.false_eq_true, if_false]
        exact hfst x hx
      · intro x hx hnot hfind
        rcases List.mem_cons.mp hx with rfl | hx'
        · exact absurd hk (hnot ke hke)
        · by_cases hbe : (eventKeyOf e == eventKeyOf x) = true
          · rw [List.find?_cons] at hfind
            simp only [hbe, if_true, Option.some.injEq] at hfind
            subst hfind
            exact absurd hk (hnot ke hke)
          · have hbe' := eq_false_of_ne_true hbe
            rw [List.find?_cons] at hfind
            simp only [hbe', Bool.false_eq_true, if_false] at hfind
            exact hcomp x hx' hnot hfind
    · obtain ⟨out, hgo, hsub, hseen, hfst, hcomp⟩ :=
        dedupEventsGo_spec rest (ke :: seen) (e :: acc) hrest
      refine ⟨e :: out, ?_, hsub.cons₂ e, ?_, ?_, ?_⟩
      · simp only [dedupEventsGo, hke, bind, Except.bind]
        simp only [hk, if_neg, if_false]
        rw [hgo]
        simp
      · intro x hx k hkx
        rcases List.mem_cons.mp hx with rfl | hx'
        · simp only [hke, Except.ok.injEq] at hkx
          subst hkx
          exact hk
        · exact fun hm => hseen x hx' k hkx (List.mem_cons_of_mem _ hm)
      · intro x hx
        rcases List.mem_cons.mp hx with rfl | hx'
        · rw [List.find?_cons]
          simp
        · obtain ⟨kx, hkx⟩ := hrest x (hsub.subset hx')
          have hkxOf := eventKeyOf_eq hkx
          have hxnot := hseen x hx' kx hkx
          have hne : ke ≠ kx := fun hEq => hxnot (hEq ▸ List.mem_cons_self _ _)
          have hbe : (eventKeyOf e == eventKeyOf x) = false := by
            rw [hkeOf, hkxOf]; simpa using hne
          rw [List.find?_cons]
          simp only [hbe, Bool.false_eq_true, if_false]
          exact hfst x hx'
      · intro x hx hnot hfind
        rcases List.mem_cons.mp hx with rfl | hx'
        · exact List.mem_cons_self _ _
        · by_cases hbe : (eventKeyOf e == eventKeyOf x) = true
          · rw [List.find?_cons] at hfind
            simp only [hbe, if_true, Option.some.injEq] at hfind
            subst hfind
            exact List.mem_cons_self _ _
          · have hbe' := eq_false_of_ne_true hbe
            rw [List.find?_cons] at hfind
            simp only [hbe', Bool.false_eq_true, if_false] at hfind
            refine List.mem_cons_of_mem _ (hcomp x hx' ?_ hfind)
            intro k hkx hmem
            rcases List.mem_cons.mp hmem with rfl | hmem'
            · exact hbe (by rw [hkeOf, eventKeyOf_eq hkx]; simp)
            · exact hnot k hkx hmem'

theorem dedupEvents_spec (l : List Json) (h : ∀ x ∈ l, ∃ k, eventKey x = .ok k) :
    ∃ out, dedupEvents l = .ok out ∧ out.Sublist l ∧
      (∀ x ∈ out, firstWithKey l x = some x) ∧
      (∀ x ∈ l, firstWithKey l x = some x → x ∈ out) := by
  obtain ⟨out, hgo, hsub, _, hfst, hcomp⟩ := dedupEventsGo_spec l [] [] h
  refine ⟨out, by simpa [dedupEvents] using hgo, hsub, ?_, ?_⟩
  · intro x hx
    simpa [firstWithKey] using hfst x hx
  · intro x hx hfind
    exact hcomp x hx (by simp) (by simpa [firstWithKey] using hfind)

theorem insertKeyed_perm (p : String × Json) :
    ∀ (l : List (String × Json)), (insertKeyed p l).Perm (p :: l)
  | [] => List.Perm.refl _
  | q :: rest => by
    unfold insertKeyed
    by_cases hle : pyStrLE q.1 p.1 = true
    · rw [if_pos hle]
      exact ((insertKeyed_perm p rest).cons q).trans (List.Perm.swap p q rest)
    · rw [if_neg hle]

theorem sortKeyed_perm :
    ∀ (l acc : List (String × Json)),
      (l.foldl (fun a p => insertKeyed p a) acc).Perm (l ++ acc)
  | [], acc => by simp
  | p :: rest, acc => by
    simp only [List.foldl_cons]
    refine (sortKeyed_perm rest (insertKeyed p acc)).trans ?_
    refine (List.Perm.append_left rest (insertKeyed_perm p acc)).trans ?_
    exact List.perm_middle

theorem sortKeyed_perm_self (l : List (String × Json)) : (sortKeyed l).Perm l := by
  simpa using sortKeyed_perm l []

theorem eventSortKey_ok_of_sortTimeOk (e : Json) (h : sortTimeOk e = true) :
    ∃ s, eventSortKey e = .ok (.str s) := by
  cases e with
  | obj fs =>
    simp only [sortTimeOk] at h
    split at h
    case _ heq => exact ⟨sentinelTime, by simp [eventSortKey, jGetDE, heq]⟩
    case _ s heq => exact ⟨s, by simp [eventSortKey, jGetDE, heq]⟩
    case _ => simp at h
  | null => simp [sortTimeOk] at h
  | bool b => simp [sortTimeOk] at h
  | num lx => simp [sortTimeOk] at h
  | str s => simp [sortTimeOk] at h
  | arr xs => simp [sortTimeOk] at h

theorem mapM_sortKey_ok :
    ∀ (l : List Json), (∀ e ∈ l, sortTimeOk e = true) →
      ∃ keyed, l.mapM (fun e => (eventSortKey e).map (fun k => (k, e))) = .ok keyed ∧
        keyed.map Prod.snd = l ∧ (keyed.all (fun p => keyIsStr p.1)) = true
  | [], _ => ⟨[], rfl, rfl, rfl⟩
  | e :: rest, h => by
    obtain ⟨s, hs⟩ := eventSortKey_ok_of_sortTimeOk e (h e (List.mem_cons_self _ _))
    obtain ⟨keyed, hm, hsnd, hstr⟩ :=
      mapM_sortKey_ok rest (fun y hy => h y (List.mem_cons_of_mem _ hy))
    refine ⟨(.str s, e) :: keyed, ?_, ?_, ?_⟩
    · rw [List.mapM_cons]
      simp only [hm]
      simp [hs, Except.map, bind, Except.bind, pure, Except.pure]
    · simp [hsnd]
    · rw [List.all_cons, hstr]
      rfl

theorem sortEvents_perm (l : List Json) (h : ∀ e ∈ l, sortTimeOk e = true) :
    ∃ out, sortEvents l = .ok out ∧ out.Perm l := by
  obtain ⟨keyed, hm, hsnd, hstr⟩ := mapM_sortKey_ok l h
  unfold sortEvents
  rw [hm]
  by_cases hlen : keyed.length ≤ 1
  · simp only [bind, Except.bind]
    rw [if_pos hlen]
    exact ⟨l, rfl, List.Perm.refl _⟩
  · simp only [bind, Except.bind]
    rw [if_neg hlen, if_pos hstr]
    refine ⟨_, rfl, ?_⟩
    have h2 := (sortKeyed_perm_self (keyed.map (fun p => (keyStr p.1, p.2)))).map Prod.snd
    have h3 : ((keyed.map (fun p => (keyStr p.1, p.2))).map Prod.snd) = l := by
      rw [List.map_map]
      simpa using hsnd
    exact h3 ▸ h2

theorem is_online_ok_of_wf (e : Json) (h : onlineFilterWF e = true) :
    ∃ b, is_online_event e = .ok b :=
  ⟨_, is_online_eq_spec e h⟩

theorem filterNotOnline_spec :
    ∀ (l : List Json), (∀ e ∈ l, onlineFilterWF e = true) →
      ∃ out, filterNotOnline l = .ok out ∧ out.Sublist l ∧
        (∀ x ∈ l, is_online_event x = .ok false → x ∈ out)
  | [], _ => ⟨[], rfl, List.Sublist.refl _, by simp⟩
  | e :: rest, h => by
    obtain ⟨b, hb⟩ := is_online_ok_of_wf e (h e (List.mem_cons_self _ _))
    obtain ⟨out, hgo, hsub, hcomp⟩ :=
      filterNotOnline_spec rest (fun y hy => h y (List.mem_cons_of_mem _ hy))
    cases b with
    | true =>
      refine ⟨out, ?_, hsub.cons e, ?_⟩
      · simp [filterNotOnline, hb, hgo, bind, Except.bind, pure, Except.pure]
      · intro x hx hof
        rcases List.mem_cons.mp hx with rfl | hx'
        · rw [hb] at hof
          simp at hof
        · exact hcomp x hx' hof
    | false =>
      refine ⟨e :: out, ?_, hsub.cons₂ e, ?_⟩
      · simp [filterNotOnline, hb, hgo, bind, Except.bind, pure, Except.pure]
      · intro x hx hof
        rcases List.mem_cons.mp hx with rfl | hx'
        · exact List.mem_cons_self _ _
        · exact List.mem_cons_of_mem _ (hcomp x hx' hof)

theorem exploreFinalize_spec (allEv allRej : List Json) (n : Int)
    (h : ∀ e ∈ allEv, finalizeEventWF e = true) :
    ∃ res, exploreFinalize allEv allRej n = .ok res ∧
      res.rejected = allRej ∧ res.total_analyzed = n ∧ res.success = true ∧
      (∀ x ∈ res.events, x ∈ allEv) ∧
      (∀ x ∈ allEv, firstWithKey allEv x = some x →
        is_online_event x = .ok false → x ∈ res.events) := by
  have hWF : ∀ e ∈ allEv, onlineFilterWF e = true ∧ sortTimeOk e = true := by
    intro e he
    have hz := h e he
    simp only [finalizeEventWF, Bool.and_eq_true] at hz
    exact hz
  have hkey : ∀ e ∈ allEv, ∃ k, eventKey e = .ok k :=
    fun e he => eventKey_ok_of_wf e (hWF e he).1
  obtain ⟨uniq, hd, hdsub, _, hdcomp⟩ := dedupEvents_spec allEv hkey
  obtain ⟨sorted, hsort, hperm⟩ := sortEvents_perm uniq
    (fun e he => (hWF e (hdsub.subset he)).2)
  obtain ⟨final, hf, hfsub, hfcomp⟩ := filterNotOnline_spec sorted
    (fun e he => (hWF e (hdsub.subset (hperm.subset he))).1)
  refine ⟨⟨true, final, n, final.length, allRej⟩, ?_, rfl, rfl, rfl, ?_, ?_⟩
  · simp [exploreFinalize, hd, hsort, hf, bind, Except.bind, pure, Except.pure]
  · intro x hx
    exact hdsub.subset (hperm.subset (hfsub.subset hx))
  · intro x hx hfst hof
    have hx1 : x ∈ uniq := hdcomp x hx hfst
    have hx2 : x ∈ sorted := hperm.mem_iff.mpr hx1
    exact hfcomp x hx2 hof

theorem mapM_ok_forall₂ {α β : Type} (f : α → Except String β) :
    ∀ (l : List α), (∀ x ∈ l, ∃ y, f x = .ok y) →
      ∃ out, l.mapM f = .ok out ∧ List.Forall₂ (fun x y => f x = .ok y) l out
  | [], _ => ⟨[], rfl, List.Forall₂.nil⟩
  | x :: t, h => by
    obtain ⟨y, hy⟩ := h x (List.mem_cons_self _ _)
    obtain ⟨out, hm, hfa⟩ := mapM_ok_forall₂ f t (fun z hz => h z (List.mem_cons_of_mem _ hz))
    refine ⟨y :: out, ?_, List.Forall₂.cons hy hfa⟩
    rw [List.mapM_cons]
    simp only [hm]
    simp [hy, bind, Except.bind, pure, Except.pure]

theorem forall₂_getElem? {α β : Type} {R : α → β → Prop} :
    ∀ {l₁ : List α} {l₂ : List β}, List.Forall₂ R l₁ l₂ →
      ∀ (i : Nat) (a : α), l₁[i]? = some a → ∃ b, l₂[i]? = some b ∧ R a b
  | _, _, .nil, i, a, ha => by simp at ha
  | _, _, .cons hR hrest, 0, a, ha => by
    simp only [List.getElem?_cons_zero, Option.some.injEq] at ha
    subst ha
    exact ⟨_, by simp, hR⟩
  | _, _, .cons hR hrest, i+1, a, ha => by
    simp only [List.getElem?_cons_succ] at ha ⊢
    exact forall₂_getElem? hrest i a ha

theorem forall₂_mem_right {α β : Type} {R : α → β → Prop} :
    ∀ {l₁ : List α} {l₂ : List β}, List.Forall₂ R l₁ l₂ →
      ∀ b ∈ l₂, ∃ a ∈ l₁, R a b
  | _, _, .nil, b, hb => by simp at hb
  | _, _, .cons hR hrest, b, hb => by
    rcases List.mem_cons.mp hb with rfl | hb'
    · exact ⟨_, List.mem_cons_self _ _, hR⟩
    · obtain ⟨a, ha, hab⟩ := forall₂_mem_right hrest b hb'
      exact ⟨a, List.mem_cons_of_mem _ ha, hab⟩

theorem mem_enum_index {α : Type} (l : List α) (p : Nat × α) (hp : p ∈ l.enum) :
    l[p.1]? = some p.2 := by
  obtain ⟨k, hk⟩ := List.mem_iff_getElem?.mp hp
  rw [List.getElem?_enum] at hk
  cases hl : l[k]? with
  | none => rw [hl] at hk; simp at hk
  | some a =>
    rw [hl] at hk
    simp only [Option.map_some', Option.some.injEq] at hk
    rw [← hk]
    exact hl

/-- C4: for any link list and any partition into the explorer's batches, if
batch `i` (with links `bi`) fails — provider error or JSON-extraction error
with reason `r` — while every other batch succeeds with well-formed output,
then the fan-in still succeeds: batch `i` contributes exactly its links
tagged with reason `r` to the rejected list and zero events, the rejected
tags all reach the final result, and every first-occurrence non-online event
collected from the other batches still appears in the final event list. -/
theorem C4_batch_failure_isolated
    (links : List Json) (provider : Nat → Except String String)
    (i : Nat) (bi : List Json) (r : String)
    (hne : links ≠ [])
    (hbi : (chunks5 links)[i]? = some bi)
    (hfail : provider i = .error r ∨
      ∃ t, provider i = .ok t ∧ extract_json "Explorer" t = .error r)
    (hurl : ∀ l ∈ bi, linkHasUrl l = true)
    (hok : ∀ j b, j ≠ i → (chunks5 links)[j]? = some b →
      ∃ res, analyze_batch b (provider j) = .ok res ∧ collectWF res = true ∧
        ∀ e ∈ batchEvents res, finalizeEventWF e = true) :
    ∃ results,
      (chunks5 links).enum.mapM (fun p => analyze_batch p.2 (provider p.1)) = .ok results ∧
      results[i]? = some ⟨false, .arr [], .arr (taggedRejects bi r), none, some r⟩ ∧
      batchEvents ⟨false, .arr [], .arr (taggedRejects bi r), none, some r⟩ = [] ∧
      batchRejected ⟨false, .arr [], .arr (taggedRejects bi r), none, some r⟩ =
        taggedRejects bi r ∧
      collectResults results = .ok
        ((results.map batchEvents).flatten, (results.map batchRejected).flatten,
          results.foldr (fun x acc => batchAnalyzed x + acc) 0) ∧
      ∃ final, explore_links links provider = .ok final ∧
        final.rejected = (results.map batchRejected).flatten ∧
        (∀ x ∈ taggedRejects bi r, x ∈ final.rejected) ∧
        (∀ x ∈ (results.map batchEvents).flatten,
          firstWithKey ((results.map batchEvents).flatten) x = some x →
          is_online_event x = .ok false → x ∈ final.events) := by
  have hfailRes :
      analyze_batch bi (provider i) =
        .ok ⟨false, .arr [], .arr (taggedRejects bi r), none, some r⟩ :=
    analyze_batch_fail bi (provider i) r hurl hfail
  have hptok : ∀ p ∈ (chunks5 links).enum,
      ∃ res, analyze_batch p.2 (provider p.1) = .ok res := by
    intro p hp
    have hidx := mem_enum_index _ p hp
    by_cases hpi : p.1 = i
    · rw [hpi, hbi] at hidx
      simp only [Option.some.injEq] at hidx
      exact ⟨_, by rw [hpi, ← hidx]; exact hfailRes⟩
    · obtain ⟨res, hres, _, _⟩ := hok p.1 p.2 hpi hidx
      exact ⟨res, hres⟩
  obtain ⟨results, hm, hfa⟩ := mapM_ok_forall₂ _ (chunks5 links).enum hptok
  have henum : (chunks5 links).enum[i]? = some (i, bi) := by
    rw [List.getElem?_enum, hbi]
    rfl
  obtain ⟨resi, hresi, hRi⟩ := forall₂_getElem? hfa i (i, bi) henum
  have hRi' : analyze_batch bi (provider i) = .ok resi := hRi
  have h2 := hfailRes.symm.trans hRi'
  injection h2 with h3
  rw [← h3] at hresi
  have hcwf : ∀ res ∈ results, collectWF res = true := by
    intro res hres
    obtain ⟨p, hp, hR⟩ := forall₂_mem_right hfa res hres
    have hidx := mem_enum_index _ p hp
    by_cases hpi : p.1 = i
    · rw [hpi, hbi] at hidx
      simp only [Option.some.injEq] at hidx
      have hR' : analyze_batch bi (provider i) = .ok res := by
        rw [hpi, ← hidx] at hR
        exact hR
      have h4 := hfailRes.symm.trans hR'
      injection h4 with h5
      rw [← h5]
      rfl
    · obtain ⟨res', hres', hwf', _⟩ := hok p.1 p.2 hpi hidx
      have h4 := hres'.symm.trans hR
      injection h4 with h5
      rw [← h5]
      exact hwf'
  have hcoll := collectResults_ok results hcwf
  have hevWF : ∀ e ∈ (results.map batchEvents).flatten, finalizeEventWF e = true := by
    intro e he
    obtain ⟨evl, hevl, hee⟩ := List.mem_flatten.mp he
    obtain ⟨res, hres, rfl⟩ := List.mem_map.mp hevl
    obtain ⟨p, hp, hR⟩ := forall₂_mem_right hfa res hres
    have hidx := mem_enum_index _ p hp
    by_cases hpi : p.1 = i
    · rw [hpi, hbi] at hidx
      simp only [Option.some.injEq] at hidx
      have hR' : analyze_batch bi (provider i) = .ok res := by
        rw [hpi, ← hidx] at hR
        exact hR
      have h4 := hfailRes.symm.trans hR'
      injection h4 with h5
      rw [← h5] at hee
      simp [batchEvents] at hee
    · obtain ⟨res', hres', _, hev'⟩ := hok p.1 p.2 hpi hidx
      have h4 := hres'.symm.trans hR
      injection h4 with h5
      rw [← h5] at hee
      exact hev' e hee
  obtain ⟨final, hfin, hrej, hana, hsucc, hsubset, hcompl⟩ :=
    exploreFinalize_spec ((results.map batchEvents).flatten)
      ((results.map batchRejected).flatten)
      (results.foldr (fun x acc => batchAnalyzed x + acc) 0) hevWF
  have hni : ¬ (links.isEmpty = true) := by
    cases links with
    | nil => exact absurd rfl hne
    | cons a t => simp
  have hexp : explore_links links provider = .ok final := by
    unfold explore_links
    rw [if_neg hni]
    simp only [hm, bind, Except.bind, hcoll]
    exact hfin
  refine ⟨results, hm, hresi, rfl, rfl, hcoll, final, hexp, hrej, ?_, ?_⟩
  · intro x hx
    rw [hrej]
    refine List.mem_flatten.mpr ⟨taggedRejects bi r, ?_, hx⟩
    exact List.mem_map.mpr
      ⟨⟨false, .arr [], .arr (taggedRejects bi r), none, some r⟩,
        List.getElem?_mem hresi, rfl⟩
  · intro x hx hfst hof
    exact hcompl x hx hfst hof

theorem C4_batch_failure_isolated_witness :
    ∃ results,
      (chunks5 linksSix).enum.mapM (fun p => analyze_batch p.2 (provBoom p.1)) =
        .ok results ∧
      results[0]? = some ⟨false, .arr [],
        .arr (taggedRejects (linksSix.take 5) "boom"), none, some "boom"⟩ ∧
      batchEvents ⟨false, .arr [],
        .arr (taggedRejects (linksSix.take 5) "boom"), none, some "boom"⟩ = [] ∧
      batchRejected ⟨false, .arr [],
        .arr (taggedRejects (linksSix.take 5) "boom"), none, some "boom"⟩ =
        taggedRejects (linksSix.take 5) "boom" ∧
      collectResults results = .ok
        ((results.map batchEvents).flatten, (results.map batchRejected).flatten,
          results.foldr (fun x acc => batchAnalyzed x + acc) 0) ∧
      ∃ final, explore_links linksSix provBoom = .ok final ∧
        final.rejected = (results.map batchRejected).flatten ∧
        (∀ x ∈ taggedRejects (linksSix.take 5) "boom", x ∈ final.rejected) ∧
        (∀ x ∈ (results.map batchEvents).flatten,
          firstWithKey ((results.map batchEvents).flatten) x = some x →
          is_online_event x = .ok false → x ∈ final.events) :=
  C4_batch_failure_isolated linksSix provBoom 0 (linksSix.take 5) "boom"
    (by simp [linksSix])
    rfl
    (Or.inl rfl)
    (by decide)
    (by
      intro j b hj hb
      have hch : chunks5 linksSix =
          [linksSix.take 5, [Json.obj [("url", Json.str "u6")]]] := rfl
      rw [hch] at hb
      match j with
      | 0 => exact absurd rfl hj
      | 1 =>
        simp only [List.getElem?_cons_succ, List.getElem?_cons_zero,
          Option.some.injEq] at hb
        subst hb
        exact ⟨⟨true, .arr [eventE], .arr [], some (.num "1"), none⟩, rfl, rfl, by decide⟩
      | j+2 =>
        simp only [List.getElem?_cons_succ] at hb
        simp at hb)

/- ## C1: calendar arithmetic for the coverage range -/

theorem daysInMonth_pos (y m : Nat) : 1 ≤ daysInMonth y m := by
  unfold daysInMonth
  split
  · split <;> omega
  · split <;> omega

theorem daysInMonth_le_31 (y m : Nat) : daysInMonth y m ≤ 31 := by
  unfold daysInMonth
  split
  · split <;> omega
  · split <;> omega

theorem daysBeforeMonth_succ (y m : Nat) (h1 : 1 ≤ m) (h2 : m ≤ 12) :
    daysBeforeMonth y (m+1) = daysBeforeMonth y m + daysInMonth y m := by
  interval_cases m <;> by_cases hl : isLeapYear y = true <;>
    simp [daysBeforeMonth, monthOffset, daysInMonth, hl]

theorem isLeapYear_iff (y : Nat) :
    isLeapYear y = true ↔ (y % 4 = 0 ∧ (y % 100 ≠ 0 ∨ y % 400 = 0)) := by
  simp [isLeapYear]

theorem daysBeforeYear_succ (y : Nat) (hy : 1 ≤ y) :
    daysBeforeYear (y+1) = daysBeforeYear y + (if isLeapYear y then 366 else 365) := by
  by_cases hl : isLeapYear y = true
  · rw [if_pos hl]
    rw [isLeapYear_iff] at hl
    unfold daysBeforeYear
    omega
  · rw [if_neg hl]
    rw [isLeapYear_iff] at hl
    push_neg at hl
    unfold daysBeforeYear
    rcases Nat.eq_zero_or_pos (y % 4) with h4 | h4
    · obtain ⟨h100, h400⟩ := hl h4
      omega
    · omega

theorem daysBeforeYear_step :
    ∀ (k y : Nat), 1 ≤ y → daysBeforeYear y ≤ daysBeforeYear (y + k)
  | 0, y, _ => le_refl _
  | k+1, y, hy => by
    have hsucc := daysBeforeYear_succ y hy
    have hrec := daysBeforeYear_step k (y+1) (by omega)
    have h3 : y + 1 + k = y + (k+1) := by omega
    rw [h3] at hrec
    by_cases hl : isLeapYear y = true <;> simp [hl] at hsucc <;> omega

theorem daysBeforeYear_le (y y' : Nat) (h1 : 1 ≤ y) (h : y ≤ y') :
    daysBeforeYear y ≤ daysBeforeYear y' := by
  have hs := daysBeforeYear_step (y' - y) y h1
  rw [show y + (y' - y) = y' by omega] at hs
  exact hs

theorem dbm_day_bound (y m d : Nat) (h1 : 1 ≤ m) (h2 : m ≤ 12) (h3 : 1 ≤ d)
    (h4 : d ≤ daysInMonth y m) :
    daysBeforeMonth y m + d ≤ 365 + (if isLeapYear y then 1 else 0) := by
  interval_cases m <;> by_cases hl : isLeapYear y = true <;>
    simp [daysBeforeMonth, monthOffset, daysInMonth, hl] at * <;> omega

theorem toOrd_nextDay (d : Date) (hv : d.Valid) : toOrd (nextDay d) = toOrd d + 1 := by
  obtain ⟨h1, h2, h3, h4, h5, h6⟩ := hv
  unfold nextDay
  by_cases hd : d.day < daysInMonth d.year d.month
  · rw [if_pos hd]
    simp only [toOrd]
    omega
  · rw [if_neg hd]
    have hday : d.day = daysInMonth d.year d.month := Nat.le_antisymm h6 (Nat.not_lt.mp hd)
    by_cases hm : d.month < 12
    · rw [if_pos hm]
      have ha1 := daysBeforeMonth_succ d.year d.month h3 h4
      simp only [toOrd]
      omega
    · rw [if_neg hm]
      have hm12 : d.month = 12 := by omega
      have ha2 := daysBeforeYear_succ d.year h1
      by_cases hl : isLeapYear d.year = true <;>
        simp [toOrd, hm12, daysBeforeMonth, monthOffset, hl, hday, daysInMonth] at * <;>
          omega

theorem dateLE_refl (d : Date) : dateLE d d = true := by
  simp [dateLE]

theorem dateLE_max (d : Date) (hv : d.Valid) : dateLE d ⟨9999, 12, 31⟩ = true := by
  obtain ⟨h1, h2, h3, h4, h5, h6⟩ := hv
  have hdim := daysInMonth_le_31 d.year d.month
  simp only [dateLE, Bool.or_eq_true, Bool.and_eq_true, decide_eq_true_eq]
  omega

theorem daysBeforeMonth_le_succ (y m : Nat) (h1 : 1 ≤ m) (h2 : m ≤ 12) :
    daysBeforeMonth y m ≤ daysBeforeMonth y (m+1) := by
  rw [daysBeforeMonth_succ y m h1 h2]
  omega

theorem daysBeforeMonth_step (y : Nat) :
    ∀ (k m : Nat), 1 ≤ m → m + k ≤ 13 → daysBeforeMonth y m ≤ daysBeforeMonth y (m + k)
  | 0, m, _, _ => le_refl _
  | k+1, m, h1, h2 => by
    have h3 := daysBeforeMonth_le_succ y m h1 (by omega)
    have h4 := daysBeforeMonth_step y k (m+1) (by omega) (by omega)
    have h5 : m + 1 + k = m + (k+1) := by omega
    rw [h5] at h4
    omega

theorem daysBeforeMonth_le (y m m' : Nat) (h1 : 1 ≤ m) (h2 : m' ≤ 13) (h : m ≤ m') :
    daysBeforeMonth y m ≤ daysBeforeMonth y m' := by
  have hs := daysBeforeMonth_step y (m' - m) m h1 (by omega)
  rw [show m + (m' - m) = m' by omega] at hs
  exact hs

theorem toOrd_lt_of_lex (a b : Date) (ha : a.Valid) (hb : b.Valid)
    (h : a.year < b.year ∨ (a.year = b.year ∧
      (a.month < b.month ∨ (a.month = b.month ∧ a.day < b.day)))) :
    toOrd a < toOrd b := by
  obtain ⟨ha1, ha2, ha3, ha4, ha5, ha6⟩ := ha
  obtain ⟨hb1, hb2, hb3, hb4, hb5, hb6⟩ := hb
  rcases h with hy | ⟨hy, hm | ⟨hm, hd⟩⟩
  · have hbound := dbm_day_bound a.year a.month a.day ha3 ha4 ha5 ha6
    have hsucc := daysBeforeYear_succ a.year ha1
    have hmono := daysBeforeYear_le (a.year + 1) b.year (by omega) (by omega)
    simp only [toOrd]
    by_cases hl : isLeapYear a.year = true <;> simp [hl] at hbound hsucc <;> omega
  · have e1 := daysBeforeMonth_succ a.year a.month ha3 ha4
    have e2 := daysBeforeMonth_le a.year (a.month + 1) b.month (by omega) (by omega) (by omega)
    simp only [toOrd]
    rw [hy] at e1 e2 ha6 ⊢
    omega
  · simp only [toOrd]
    rw [hy, hm]
    omega

theorem dateLE_iff (a b : Date) (ha : a.Valid) (hb : b.Valid) :
    dateLE a b = true ↔ toOrd a ≤ toOrd b := by
  constructor
  · intro h
    simp only [dateLE, Bool.or_eq_true, Bool.and_eq_true, decide_eq_true_eq] at h
    rcases h with hy | ⟨hy, hm | ⟨hm, hd⟩⟩
    · exact le_of_lt (toOrd_lt_of_lex a b ha hb (Or.inl hy))
    · exact le_of_lt (toOrd_lt_of_lex a b ha hb (Or.inr ⟨hy, Or.inl hm⟩))
    · simp only [toOrd]
      rw [hy, hm]
      omega
  · intro h
    by_contra hne
    have hlex : b.year < a.year ∨ (b.year = a.year ∧
        (b.month < a.month ∨ (b.month = a.month ∧ b.day < a.day))) := by
      have hprop : ¬ (a.year < b.year ∨ (a.year = b.year ∧
          (a.month < b.month ∨ (a.month = b.month ∧ a.day ≤ b.day)))) := by
        intro hp
        apply hne
        simp only [dateLE, Bool.or_eq_true, Bool.and_eq_true, decide_eq_true_eq]
        exact hp
      omega
    have hlt := toOrd_lt_of_lex b a hb ha hlex
    omega

theorem toOrd_inj {a b : Date} (ha : a.Valid) (hb : b.Valid) (h : toOrd a = toOrd b) :
    a = b := by
  by_contra hne
  have hlex : (a.year < b.year ∨ (a.year = b.year ∧
      (a.month < b.month ∨ (a.month = b.month ∧ a.day < b.day)))) ∨
      (b.year < a.year ∨ (b.year = a.year ∧
        (b.month < a.month ∨ (b.month = a.month ∧ b.day < a.day)))) := by
    have hcomp : ¬ (a.year = b.year ∧ a.month = b.month ∧ a.day = b.day) := by
      intro hc
      apply hne
      obtain ⟨h1, h2, h3⟩ := hc
      cases a
      cases b
      simp only [Date.mk.injEq]
      exact ⟨h1, h2, h3⟩
    omega
  rcases hlex with hl | hl
  · have := toOrd_lt_of_lex a b ha hb hl
    omega
  · have := toOrd_lt_of_lex b a hb ha hl
    omega

theorem nextDay_valid (d : Date) (hv : d.Valid) (hne : d ≠ ⟨9999, 12, 31⟩) :
    (nextDay d).Valid := by
  obtain ⟨h1, h2, h3, h4, h5, h6⟩ := hv
  unfold nextDay
  by_cases hd : d.day < daysInMonth d.year d.month
  · rw [if_pos hd]
    refine ⟨?_, ?_, ?_, ?_, ?_, ?_⟩ <;> dsimp only <;> omega
  · rw [if_neg hd]
    by_cases hm : d.month < 12
    · rw [if_pos hm]
      refine ⟨?_, ?_, ?_, ?_, ?_, ?_⟩ <;> dsimp only
      · omega
      · omega
      · omega
      · omega
      · omega
      · exact daysInMonth_pos _ _
    · rw [if_neg hm]
      have hy : d.year < 9999 := by
        rcases Nat.lt_or_ge d.year 9999 with h | h
        · exact h
        · exfalso
          apply hne
          have hy9 : d.year = 9999 := by omega
          have hm12 : d.month = 12 := by omega
          have hdim : daysInMonth d.year d.month = 31 := by
            have hmm : d.month = 12 := hm12
            rw [hmm]
            simp [daysInMonth]
          have hd31 : d.day = 31 := by omega
          cases d
          simp only [Date.mk.injEq]
          exact ⟨hy9, hm12, hd31⟩
      refine ⟨?_, ?_, ?_, ?_, ?_, ?_⟩ <;> dsimp only
      · omega
      · omega
      · omega
      · omega
      · omega
      · exact daysInMonth_pos _ _

theorem dateRangeGo_spec :
    ∀ (fuel : Nat) (s e : Date), s.Valid → e.Valid → e ≠ ⟨9999, 12, 31⟩ →
      toOrd e + 1 - toOrd s ≤ fuel →
      ∃ ds, dateRangeGo fuel s e = .ok ds ∧
        ds.map toOrd = List.range' (toOrd s) (toOrd e + 1 - toOrd s) ∧
        ∀ d ∈ ds, d.Valid ∧ dateLE s d = true ∧ dateLE d e = true
  | 0, s, e, hs, he, hmax, hf => by
    refine ⟨[], rfl, ?_, by simp⟩
    rw [show toOrd e + 1 - toOrd s = 0 by omega]
    rfl
  | fuel+1, s, e, hs, he, hmax, hf => by
    by_cases hle : dateLE s e = true
    · have hlt : toOrd s ≤ toOrd e := (dateLE_iff s e hs he).mp hle
      have hsne : s ≠ ⟨9999, 12, 31⟩ := by
        intro hEq
        apply hmax
        have hemax : toOrd e ≤ toOrd ⟨9999, 12, 31⟩ :=
          (dateLE_iff e ⟨9999, 12, 31⟩ he (by decide)).mp (dateLE_max e he)
        have hEq2 : toOrd e = toOrd (⟨9999, 12, 31⟩ : Date) := by
          rw [← hEq] at hemax
          rw [← hEq]
          omega
        exact toOrd_inj he (by decide) hEq2
      have hnv := nextDay_valid s hs hsne
      have hord := toOrd_nextDay s hs
      obtain ⟨ds, hgo, hmap, hall⟩ :=
        dateRangeGo_spec fuel (nextDay s) e hnv he hmax (by omega)
      refine ⟨s :: ds, ?_, ?_, ?_⟩
      · simp only [dateRangeGo]
        rw [if_pos hle, if_neg hsne, hgo]
        rfl
      · rw [List.map_cons, hmap, hord]
        rw [show toOrd e + 1 - toOrd s = (toOrd e + 1 - (toOrd s + 1)) + 1 by omega]
        rw [List.range'_succ]
      · intro d hd
        rcases List.mem_cons.mp hd with rfl | hd'
        · exact ⟨hs, dateLE_refl d, hle⟩
        · obtain ⟨hv, hsd, hde⟩ := hall d hd'
          refine ⟨hv, ?_, hde⟩
          have h1 := (dateLE_iff (nextDay s) d hnv hv).mp hsd
          exact (dateLE_iff s d hs hv).mpr (by omega)
    · have hgt : toOrd e < toOrd s := by
        by_contra hh
        exact hle ((dateLE_iff s e hs he).mpr (by omega))
      refine ⟨[], ?_, ?_, by simp⟩
      · simp only [dateRangeGo]
        rw [if_neg hle]
      · rw [show toOrd e + 1 - toOrd s = 0 by omega]
        rfl

theorem digitChar_fin_inj : ∀ (a b : Fin 10), digitChar a.val = digitChar b.val → a = b := by
  decide

theorem digitChar_mod_inj {m n : Nat} (h : digitChar m = digitChar n) : m % 10 = n % 10 := by
  have h1 : digitChar (m % 10) = digitChar (n % 10) := by
    unfold digitChar at h ⊢
    rw [show m % 10 % 10 = m % 10 by omega, show n % 10 % 10 = n % 10 by omega]
    exact h
  have h2 := digitChar_fin_inj ⟨m % 10, by omega⟩ ⟨n % 10, by omega⟩ h1
  exact congrArg Fin.val h2

theorem renderDate_inj {a b : Date} (ha : a.Valid) (hb : b.Valid)
    (h : renderDate a = renderDate b) : a = b := by
  obtain ⟨ha1, ha2, ha3, ha4, ha5, ha6⟩ := ha
  obtain ⟨hb1, hb2, hb3, hb4, hb5, hb6⟩ := hb
  have hda := daysInMonth_le_31 a.year a.month
  have hdb := daysInMonth_le_31 b.year b.month
  unfold renderDate at h
  have h2 := congrArg String.data h
  simp only [List.cons.injEq, and_true] at h2
  obtain ⟨c1, c2, c3, c4, _, c6, c7, _, c9, c10⟩ := h2
  have e1 := digitChar_mod_inj c1
  have e2 := digitChar_mod_inj c2
  have e3 := digitChar_mod_inj c3
  have e4 := digitChar_mod_inj c4
  have e5 := digitChar_mod_inj c6
  have e6 := digitChar_mod_inj c7
  have e7 := digitChar_mod_inj c9
  have e8 := digitChar_mod_inj c10
  cases a
  cases b
  simp only [Date.mk.injEq]
  dsimp only at *
  omega

theorem rangeKeys_nodup (ds : List Date) (hv : ∀ d ∈ ds, d.Valid)
    (s n : Nat) (hmap : ds.map toOrd = List.range' s n) :
    (ds.map renderDate).Nodup := by
  have h1 : (ds.map toOrd).Nodup := by
    rw [hmap]
    exact List.nodup_range' s n
  have hnd : ds.Nodup := List.Nodup.of_map toOrd h1
  exact hnd.map_on
    (fun x hx y hy hxy => renderDate_inj (hv x hx) (hv y hy) hxy)

theorem char_digit_bounds {c : Char} (h : c.isDigit = true) :
    48 ≤ c.toNat ∧ c.toNat ≤ 57 := by
  simp only [Char.isDigit, Bool.and_eq_true, decide_eq_true_eq] at h
  exact h

theorem parseDate_valid {s : String} {d : Date} (h : parseDate s = some d) : d.Valid := by
  unfold parseDate at h
  split at h
  next y1 y2 y3 y4 m1 m2 d1 d2 heq =>
    split at h
    next hdig =>
      dsimp only at h
      split at h
      next hb =>
        simp only [Option.some.injEq] at h
        subst h
        simp only [List.all_cons, List.all_nil, Bool.and_eq_true, Bool.and_true] at hdig
        obtain ⟨hy1, hy2, hy3, hy4, hm1, hm2, hd1, hd2⟩ := hdig
        obtain ⟨b1, b2, b3, b4, b5⟩ := hb
        have c1 := char_digit_bounds hy1
        have c2 := char_digit_bounds hy2
        have c3 := char_digit_bounds hy3
        have c4 := char_digit_bounds hy4
        refine ⟨b1, ?_, b2, b3, b4, b5⟩
        simp only [digitsToNat, List.foldl_cons, List.foldl_nil] at *
        omega
      next => simp at h
    next => simp at h
  next => simp at h

theorem dateRange_spec (s e : Date) (hs : s.Valid) (he : e.Valid)
    (hmax : e ≠ ⟨9999, 12, 31⟩) :
    ∃ ds, dateRange s e = .ok ds ∧
      ds.map toOrd = List.range' (toOrd s) (toOrd e + 1 - toOrd s) ∧
      (∀ d ∈ ds, d.Valid ∧ dateLE s d = true ∧ dateLE d e = true) ∧
      (∀ d : Date, d.Valid → dateLE s d = true → dateLE d e = true → d ∈ ds) ∧
      (ds.map renderDate).Nodup := by
  obtain ⟨ds, hgo, hmap, hall⟩ :=
    dateRangeGo_spec (toOrd e + 1 - toOrd s) s e hs he hmax (le_refl _)
  refine ⟨ds, hgo, hmap, hall, ?_, ?_⟩
  · intro d hv hsd hde
    have h1 := (dateLE_iff s d hs hv).mp hsd
    have h2 := (dateLE_iff d e hv he).mp hde
    have hmem : toOrd d ∈ List.range' (toOrd s) (toOrd e + 1 - toOrd s) :=
      List.mem_range'_1.mpr ⟨h1, by omega⟩
    rw [← hmap] at hmem
    obtain ⟨d', hd', hdd⟩ := List.mem_map.mp hmem
    have hdeq := toOrd_inj (hall d' hd').1 hv hdd
    rw [← hdeq]
    exact hd'
  · exact rangeKeys_nodup ds (fun d hd => (hall d hd).1) _ _ hmap

theorem assignEvents_spec :
    ∀ (events : List Json) (g : List (String × List Json)),
      (∀ e ∈ events, covEventWF e = true) →
      assignEvents g events = .ok (g.map (fun p =>
        (p.1, p.2 ++ events.filter (fun e => eventDatePortion e == some p.1))))
  | [], g, _ => by
    simp [assignEvents]
  | e :: rest, g, h => by
    have he := h e (List.mem_cons_self _ _)
    have hrest : ∀ x ∈ rest, covEventWF x = true :=
      fun y hy => h y (List.mem_cons_of_mem _ hy)
    unfold covEventWF at he
    split at he
    case _ fs =>
      unfold strFieldOk at he
      split at he
      case _ heq2 =>
        have ih := assignEvents_spec rest g hrest
        have hdp : eventDatePortion (Json.obj fs) = none := by
          simp [eventDatePortion, jGet, heq2]
        have hbeq : ∀ k : String, (eventDatePortion (Json.obj fs) == some k) = false := by
          intro k
          rw [hdp]
          rfl
        simp only [assignEvents, jGetE, bind, Except.bind, heq2, Option.getD_none, jTruthy]
        rw [if_neg (by simp), ih]
        simp [List.filter_cons, hbeq]
      case _ heq2 =>
        have ih := assignEvents_spec rest g hrest
        have hdp : eventDatePortion (Json.obj fs) = none := by
          simp [eventDatePortion, jGet, heq2]
        have hbeq : ∀ k : String, (eventDatePortion (Json.obj fs) == some k) = false := by
          intro k
          rw [hdp]
          rfl
        simp only [assignEvents, jGetE, bind, Except.bind, heq2, Option.getD_some, jTruthy]
        rw [if_neg (by simp), ih]
        simp [List.filter_cons, hbeq]
      case _ s heq2 =>
        by_cases hemp : s.toList.isEmpty = true
        · have hemp' : s.data = [] := by simpa [String.toList] using hemp
          have ih := assignEvents_spec rest g hrest
          have hdp : eventDatePortion (Json.obj fs) = none := by
            simp [eventDatePortion, jGet, heq2, hemp']
          have hbeq : ∀ k : String, (eventDatePortion (Json.obj fs) == some k) = false := by
            intro k
            rw [hdp]
            rfl
          simp only [assignEvents, jGetE, bind, Except.bind, heq2, Option.getD_some, jTruthy]
          rw [if_neg (by simp [hemp']), ih]
          simp [List.filter_cons, hbeq]
        · have hemp' : ¬ s.data = [] := by simpa [String.toList] using hemp
          have hdp : eventDatePortion (Json.obj fs) =
              some (String.mk ((pySplit 'T' s.toList).headD [])) := by
            simp [eventDatePortion, jGet, heq2, hemp']
          by_cases hany : (g.any (fun p => p.1 =
              String.mk ((pySplit 'T' s.toList).headD []))) = true
          · have ih := assignEvents_spec rest
              (updateGrouped g (String.mk ((pySplit 'T' s.toList).headD []))
                (Json.obj fs)) hrest
            simp only [assignEvents, jGetE, bind, Except.bind, heq2,
              Option.getD_some, jTruthy]
            rw [if_pos (by simp [hemp']), if_pos hany, ih]
            unfold updateGrouped
            rw [List.map_map]
            refine congrArg Except.ok (List.map_congr_left ?_)
            intro p _
            by_cases hp : p.1 = String.mk ((pySplit 'T' s.toList).headD [])
            · have hbt : (eventDatePortion (Json.obj fs) == some p.1) = true := by
                rw [hdp, hp]
                simp
              simp only [Function.comp]
              rw [if_pos hp, List.filter_cons, hbt]
              simp [List.append_assoc]
            · have hbf : (eventDatePortion (Json.obj fs) == some p.1) = false := by
                rw [hdp]
                simp only [beq_eq_false_iff_ne, ne_eq, Option.some.injEq]
                exact fun hEq => hp hEq.symm
              simp only [Function.comp]
              rw [if_neg hp, List.filter_cons, hbf]
              simp
          · have ih := assignEvents_spec rest g hrest
            have hany' : (g.any (fun p => p.1 =
                String.mk ((pySplit 'T' s.toList).headD []))) = false :=
              eq_false_of_ne_true hany
            simp only [assignEvents, jGetE, bind, Except.bind, heq2,
              Option.getD_some, jTruthy]
            rw [if_pos (by simp [hemp']), if_neg (by rw [hany']; simp), ih]
            refine congrArg Except.ok (List.map_congr_left ?_)
            intro p hpg
            have h5 := List.any_eq_false.mp hany' p hpg
            have hpne : ¬ (p.1 = String.mk ((pySplit 'T' s.toList).headD [])) := by
              simpa using h5
            have hbf : (eventDatePortion (Json.obj fs) == some p.1) = false := by
              rw [hdp]
              simp only [beq_eq_false_iff_ne, ne_eq, Option.some.injEq]
              exact fun hEq => hpne hEq.symm
            rw [List.filter_cons, hbf]
            simp
      case _ => simp at he
    case _ => simp at he

theorem has_time_slot_iff (evs : List Json) (a b : Int) :
    has_time_slot evs a b = true ↔
      ∃ e ∈ evs, ∃ h, parseHourEv e = some h ∧ a ≤ h ∧ h < b := by
  unfold has_time_slot
  rw [List.any_eq_true]
  constructor
  · rintro ⟨e, he, hp⟩
    refine ⟨e, he, ?_⟩
    split at hp
    case _ hh heqp =>
      have := of_decide_eq_true hp
      exact ⟨hh, heqp, this.1, this.2⟩
    case _ => simp at hp
  · rintro ⟨e, he, h, hpe, h1, h2⟩
    refine ⟨e, he, ?_⟩
    rw [hpe]
    exact decide_eq_true ⟨h1, h2⟩

theorem analyze_event_coverage_ok (events : List Json) (sd ed : String) (dS dE : Date)
    (hds : parseDate sd = some dS) (hde : parseDate ed = some dE)
    (hmax : dE ≠ ⟨9999, 12, 31⟩)
    (hev : ∀ e ∈ events, covEventWF e = true) :
    ∃ range cov, dateRange dS dE = .ok range ∧
      analyze_event_coverage events sd ed = .ok cov ∧
      cov.map Prod.fst = range.map renderDate ∧
      (cov.map Prod.fst).Nodup ∧
      range.map toOrd = List.range' (toOrd dS) (toOrd dE + 1 - toOrd dS) ∧
      (∀ d ∈ range, d.Valid ∧ dateLE dS d = true ∧ dateLE d dE = true) ∧
      (∀ d : Date, d.Valid → dateLE dS d = true → dateLE d dE = true → d ∈ range) ∧
      (∀ k day, (k, day) ∈ cov →
        day.events = events.filter (fun e => eventDatePortion e == some k) ∧
        day.count = day.events.length ∧
        (day.has_morning = true ↔
          ∃ e ∈ day.events, ∃ h, parseHourEv e = some h ∧ 8 ≤ h ∧ h < 12) ∧
        (day.has_afternoon = true ↔
          ∃ e ∈ day.events, ∃ h, parseHourEv e = some h ∧ 12 ≤ h ∧ h < 17) ∧
        (day.has_evening = true ↔
          ∃ e ∈ day.events, ∃ h, parseHourEv e = some h ∧ 17 ≤ h ∧ h < 24)) := by
  have hvs := parseDate_valid hds
  have hve := parseDate_valid hde
  obtain ⟨range, hr, hmap, hall, hcompl, hnd⟩ := dateRange_spec dS dE hvs hve hmax
  have hassign := assignEvents_spec events
    ((range.map renderDate).map (fun k => (k, ([] : List Json)))) hev
  have heq : analyze_event_coverage events sd ed =
      .ok (mkCoverage ((((range.map renderDate).map
        (fun k => (k, ([] : List Json)))).map (fun p =>
          (p.1, p.2 ++ events.filter (fun e => eventDatePortion e == some p.1)))))) := by
    unfold analyze_event_coverage
    rw [hds, hde]
    simp only [bind, Except.bind]
    rw [hr]
    dsimp only
    rw [hassign]
    rfl
  refine ⟨range, _, hr, heq, ?_, ?_, hmap, hall, hcompl, ?_⟩
  · simp [mkCoverage, List.map_map, Function.comp]
  · have hfst : ((mkCoverage ((((range.map renderDate).map
        (fun k => (k, ([] : List Json)))).map (fun p =>
          (p.1, p.2 ++ events.filter (fun e => eventDatePortion e == some p.1)))))).map
        Prod.fst) = range.map renderDate := by
      simp [mkCoverage, List.map_map, Function.comp]
    rw [hfst]
    exact hnd
  · intro k day hkday
    unfold mkCoverage at hkday
    obtain ⟨p, hp, hpe⟩ := List.mem_map.mp hkday
    simp only [Prod.mk.injEq] at hpe
    obtain ⟨hk1, hk2⟩ := hpe
    obtain ⟨q, hq, hqe⟩ := List.mem_map.mp hp
    obtain ⟨key, hkey, hqe2⟩ := List.mem_map.mp hq
    subst hqe2
    subst hqe
    subst hk1
    subst hk2
    refine ⟨by simp, by simp, ?_, ?_, ?_⟩
    · rw [show (⟨(((key, ([] : List Json)).1, (key, ([] : List Json)).2 ++
          events.filter (fun e => eventDatePortion e == some (key, ([] : List Json)).1)) :
            String × List Json).2.length, ((key, ([] : List Json)).1,
          (key, ([] : List Json)).2 ++ events.filter (fun e =>
            eventDatePortion e == some (key, ([] : List Json)).1)).2,
          has_time_slot ((key, ([] : List Json)).1, (key, ([] : List Json)).2 ++
            events.filter (fun e => eventDatePortion e ==
              some (key, ([] : List Json)).1)).2 8 12,
          has_time_slot ((key, ([] : List Json)).1, (key, ([] : List Json)).2 ++
            events.filter (fun e => eventDatePortion e ==
              some (key, ([] : List Json)).1)).2 12 17,
          has_time_slot ((key, ([] : List Json)).1, (key, ([] : List Json)).2 ++
            events.filter (fun e => eventDatePortion e ==
              some (key, ([] : List Json)).1)).2 17 24⟩ : CoverageDay).has_morning =
        has_time_slot (events.filter (fun e => eventDatePortion e == some key)) 8 12
        from by simp]
      exact has_time_slot_iff _ 8 12
    · rw [show (⟨(((key, ([] : List Json)).1, (key, ([] : List Json)).2 ++
          events.filter (fun e => eventDatePortion e == some (key, ([] : List Json)).1)) :
            String × List Json).2.length, ((key, ([] : List Json)).1,
          (key, ([] : List Json)).2 ++ events.filter (fun e =>
            eventDatePortion e == some (key, ([] : List Json)).1)).2,
          has_time_slot ((key, ([] : List Json)).1, (key, ([] : List Json)).2 ++
            events.filter (fun e => eventDatePortion e ==
              some (key, ([] : List Json)).1)).2 8 12,
          has_time_slot ((key, ([] : List Json)).1, (key, ([] : List Json)).2 ++
            events.filter (fun e => eventDatePortion e ==
              some (key, ([] : List Json)).1)).2 12 17,
          has_time_slot ((key, ([] : List Json)).1, (key, ([] : List Json)).2 ++
            events.filter (fun e => eventDatePortion e ==
              some (key, ([] : List Json)).1)).2 17 24⟩ : CoverageDay).has_afternoon =
        has_time_slot (events.filter (fun e => eventDatePortion e == some key)) 12 17
        from by simp]
      exact has_time_slot_iff _ 12 17
    · rw [show (⟨(((key, ([] : List Json)).1, (key, ([] : List Json)).2 ++
          events.filter (fun e => eventDatePortion e == some (key, ([] : List Json)).1)) :
            String × List Json).2.length, ((key, ([] : List Json)).1,
          (key, ([] : List Json)).2 ++ events.filter (fun e =>
            eventDatePortion e == some (key, ([] : List Json)).1)).2,
          has_time_slot ((key, ([] : List Json)).1, (key, ([] : List Json)).2 ++
            events.filter (fun e => eventDatePortion e ==
              some (key, ([] : List Json)).1)).2 8 12,
          has_time_slot ((key, ([] : List Json)).1, (key, ([] : List Json)).2 ++
            events.filter (fun e => eventDatePortion e ==
              some (key, ([] : List Json)).1)).2 12 17,
          has_time_slot ((key, ([] : List Json)).1, (key, ([] : List Json)).2 ++
            events.filter (fun e => eventDatePortion e ==
              some (key, ([] : List Json)).1)).2 17 24⟩ : CoverageDay).has_evening =
        has_time_slot (events.filter (fun e => eventDatePortion e == some key)) 17 24
        from by simp]
      exact has_time_slot_iff _ 17 24

/-- C1 counterexample: the claim's "for every inclusive date range" fails at
the upper edge of `datetime`'s calendar — a range ending on 9999-12-31 makes
the enumeration loop increment `datetime.max` and raise `OverflowError`
instead of returning the coverage map. -/
theorem C1_counterexample :
    analyze_event_coverage [] "9999-12-30" "9999-12-31" =
      .error "OverflowError: date value out of range" := rfl

/-- C1 (amended): for parseable ISO dates whose end date is not 9999-12-31
and events of EventRecord shape, the coverage map has exactly one entry per
calendar date of the inclusive range, in order (the key list equals the
rendered range, is duplicate-free, the range's day ordinals are exactly the
integer interval, and every valid date between the bounds occurs); each day's
events are exactly the events whose `start_time` date portion equals that
key, `count` is their number, and each slot flag holds iff some assigned
event has a parsable start hour in [8,12), [12,17), [17,24) — events with an
unparsable hour are skipped for slots but still counted by date. -/
theorem C1_coverage_per_day (events : List Json) (sd ed : String) (dS dE : Date)
    (hds : parseDate sd = some dS) (hde : parseDate ed = some dE)
    (hmax : dE ≠ ⟨9999, 12, 31⟩)
    (hev : ∀ e ∈ events, covEventWF e = true) :
    ∃ range cov, dateRange dS dE = .ok range ∧
      analyze_event_coverage events sd ed = .ok cov ∧
      cov.map Prod.fst = range.map renderDate ∧
      (cov.map Prod.fst).Nodup ∧
      range.map toOrd = List.range' (toOrd dS) (toOrd dE + 1 - toOrd dS) ∧
      (∀ d ∈ range, d.Valid ∧ dateLE dS d = true ∧ dateLE d dE = true) ∧
      (∀ d : Date, d.Valid → dateLE dS d = true → dateLE d dE = true → d ∈ range) ∧
      (∀ k day, (k, day) ∈ cov →
        day.events = events.filter (fun e => eventDatePortion e == some k) ∧
        day.count = day.events.length ∧
        (day.has_morning = true ↔
          ∃ e ∈ day.events, ∃ h, parseHourEv e = some h ∧ 8 ≤ h ∧ h < 12) ∧
        (day.has_afternoon = true ↔
          ∃ e ∈ day.events, ∃ h, parseHourEv e = some h ∧ 12 ≤ h ∧ h < 17) ∧
        (day.has_evening = true ↔
          ∃ e ∈ day.events, ∃ h, parseHourEv e = some h ∧ 17 ≤ h ∧ h < 24)) :=
  analyze_event_coverage_ok events sd ed dS dE hds hde hmax hev

theorem C1_coverage_per_day_witness :
    ∃ range cov, dateRange ⟨2026, 1, 1⟩ ⟨2026, 1, 3⟩ = .ok range ∧
      analyze_event_coverage [eventA, eventBMissing] "2026-01-01" "2026-01-03" = .ok cov ∧
      cov.map Prod.fst = range.map renderDate ∧
      (cov.map Prod.fst).Nodup ∧
      range.map toOrd = List.range'
        (toOrd ⟨2026, 1, 1⟩) (toOrd ⟨2026, 1, 3⟩ + 1 - toOrd ⟨2026, 1, 1⟩) ∧
      (∀ d ∈ range, d.Valid ∧ dateLE ⟨2026, 1, 1⟩ d = true ∧
        dateLE d ⟨2026, 1, 3⟩ = true) ∧
      (∀ d : Date, d.Valid → dateLE ⟨2026, 1, 1⟩ d = true →
        dateLE d ⟨2026, 1, 3⟩ = true → d ∈ range) ∧
      (∀ k day, (k, day) ∈ cov →
        day.events = [eventA, eventBMissing].filter
          (fun e => eventDatePortion e == some k) ∧
        day.count = day.events.length ∧
        (day.has_morning = true ↔
          ∃ e ∈ day.events, ∃ h, parseHourEv e = some h ∧ 8 ≤ h ∧ h < 12) ∧
        (day.has_afternoon = true ↔
          ∃ e ∈ day.events, ∃ h, parseHourEv e = some h ∧ 12 ≤ h ∧ h < 17) ∧
        (day.has_evening = true ↔
          ∃ e ∈ day.events, ∃ h, parseHourEv e = some h ∧ 17 ≤ h ∧ h < 24)) :=
  C1_coverage_per_day [eventA, eventBMissing] "2026-01-01" "2026-01-03"
    ⟨2026, 1, 1⟩ ⟨2026, 1, 3⟩ rfl rfl (by decide) (by decide)

/- ## C8: partial failures never abort the pipeline -/

theorem chunksGo_mem :
    ∀ (fuel : Nat) (l b : List Json), b ∈ chunksGo fuel l → ∀ x ∈ b, x ∈ l
  | 0, l, b, hb => by simp [chunksGo] at hb
  | fuel+1, l, b, hb => by
    cases l with
    | nil => simp [chunksGo] at hb
    | cons a t =>
      simp only [chunksGo] at hb
      rcases List.mem_cons.mp hb with rfl | hb'
      · exact fun x hx => List.take_subset _ _ hx
      · intro x hx
        exact List.drop_subset _ _ (chunksGo_mem fuel _ b hb' x hx)

theorem chunks5_mem (links : List Json) (j : Nat) (b : List Json)
    (h : (chunks5 links)[j]? = some b) : ∀ x ∈ b, x ∈ links :=
  chunksGo_mem links.length links b (List.getElem?_mem h)

theorem linkHasUrl_of_scoutWF (l : Json) (h : scoutLinkWF l = true) :
    linkHasUrl l = true := by
  cases l with
  | obj fs =>
    simp only [scoutLinkWF] at h
    simp only [linkHasUrl]
    split at h
    case _ s heq => rw [heq]; rfl
    case _ => simp at h
  | null => simp [scoutLinkWF] at h
  | bool b => simp [scoutLinkWF] at h
  | num lx => simp [scoutLinkWF] at h
  | str s => simp [scoutLinkWF] at h
  | arr xs => simp [scoutLinkWF] at h

theorem covEventWF_of_finalize (e : Json) (h : finalizeEventWF e = true) :
    covEventWF e = true := by
  simp only [finalizeEventWF, Bool.and_eq_true] at h
  obtain ⟨h1, h2⟩ := h
  cases e with
  | obj fs =>
    simp only [sortTimeOk] at h2
    simp only [covEventWF]
    split at h2
    case _ heq => rw [heq]; rfl
    case _ s heq => rw [heq]; rfl
    case _ => simp at h2
  | null => simp [sortTimeOk] at h2
  | bool b => simp [sortTimeOk] at h2
  | num lx => simp [sortTimeOk] at h2
  | str s => simp [sortTimeOk] at h2
  | arr xs => simp [sortTimeOk] at h2

theorem explore_links_ok (links : List Json) (provider : Nat → Except String String)
    (hne : links ≠ [])
    (hok : ∀ j b, (chunks5 links)[j]? = some b →
      ∃ res, analyze_batch b (provider j) = .ok res ∧ collectWF res = true ∧
        ∀ e ∈ batchEvents res, finalizeEventWF e = true) :
    ∃ final, explore_links links provider = .ok final ∧ final.success = true ∧
      ∀ x ∈ final.events, finalizeEventWF x = true := by
  have hptok : ∀ p ∈ (chunks5 links).enum,
      ∃ res, analyze_batch p.2 (provider p.1) = .ok res := by
    intro p hp
    obtain ⟨res, hres, _, _⟩ := hok p.1 p.2 (mem_enum_index _ p hp)
    exact ⟨res, hres⟩
  obtain ⟨results, hm, hfa⟩ := mapM_ok_forall₂ _ (chunks5 links).enum hptok
  have hcwf : ∀ res ∈ results, collectWF res = true := by
    intro res hres
    obtain ⟨p, hp, hR⟩ := forall₂_mem_right hfa res hres
    obtain ⟨res', hres', hwf', _⟩ := hok p.1 p.2 (mem_enum_index _ p hp)
    have h4 := hres'.symm.trans hR
    injection h4 with h5
    rw [← h5]
    exact hwf'
  have hcoll := collectResults_ok results hcwf
  have hevWF : ∀ e ∈ (results.map batchEvents).flatten, finalizeEventWF e = true := by
    intro e he
    obtain ⟨evl, hevl, hee⟩ := List.mem_flatten.mp he
    obtain ⟨res, hres, rfl⟩ := List.mem_map.mp hevl
    obtain ⟨p, hp, hR⟩ := forall₂_mem_right hfa res hres
    obtain ⟨res', hres', _, hev'⟩ := hok p.1 p.2 (mem_enum_index _ p hp)
    have h4 := hres'.symm.trans hR
    injection h4 with h5
    rw [← h5] at hee
    exact hev' e hee
  obtain ⟨final, hfin, hrej, hana, hsucc, hsubset, hcompl⟩ :=
    exploreFinalize_spec ((results.map batchEvents).flatten)
      ((results.map batchRejected).flatten)
      (results.foldr (fun x acc => batchAnalyzed x + acc) 0) hevWF
  have hni : ¬ (links.isEmpty = true) := by
    cases links with
    | nil => exact absurd rfl hne
    | cons a t => simp
  refine ⟨final, ?_, hsucc, fun x hx => hevWF x (hsubset x hx)⟩
  unfold explore_links
  rw [if_neg hni]
  simp only [hm, bind, Except.bind, hcoll]
  exact hfin

theorem search_for_interest_fail (interest r : String) :
    search_for_interest interest (.error r) = ⟨false, interest, .arr [], some r⟩ := rfl

theorem scout_events_ok (interests : List String) (sd now : String)
    (provider : Nat → Except String String)
    (h : ∀ p ∈ interests.enum, scoutResultLinksWF
      (search_for_interest p.2 (provider p.1)) = true) :
    ∃ uniq, scout_events interests sd now provider =
      .ok ⟨interests.enum.map (fun p => search_for_interest p.2 (provider p.1)), uniq,
        uniq.length⟩ ∧
      (∀ x ∈ uniq, scoutLinkWF x = true) := by
  have hwf : ∀ r ∈ interests.enum.map (fun p => search_for_interest p.2 (provider p.1)),
      scoutResultLinksWF r = true := by
    intro r hr
    obtain ⟨p, hp, rfl⟩ := List.mem_map.mp hr
    exact h p hp
  have hflat := scoutFlatten_ok sd now _ hwf
  have hflatWF := flat_tagged_wf sd now _ hwf
  obtain ⟨uniq, hd, hsub, _, _, _⟩ := scoutDedup_spec _ hflatWF
  refine ⟨uniq, ?_, fun x hx => hflatWF x (hsub.subset hx)⟩
  unfold scout_events
  simp only [bind, Except.bind]
  rw [hflat]
  dsimp only
  rw [hd]
  rfl

/-- C8: partial failures never abort the pipeline.  A failed scout search
contributes the empty-links result with the reason recorded; a failed
explorer batch contributes zero events and its links tagged with the reason;
and under well-formed shapes for the successful units the orchestrator
always returns a value — `Done` with the assembled itinerary, or the
`NoResults` outcome exactly when the scout stage aggregated zero links
(a returned value, not an exception). -/
theorem C8_partial_failures_complete
    (interests : List String) (startDate endDate now : String)
    (scoutProvider exploreProvider : Nat → Except String String)
    (dS dE : Date)
    (hds : parseDate startDate = some dS) (hde : parseDate endDate = some dE)
    (hmax : dE ≠ ⟨9999, 12, 31⟩)
    (hscout : ∀ p ∈ interests.enum,
      scoutResultLinksWF (search_for_interest p.2 (scoutProvider p.1)) = true)
    (hexp : ∀ j b, (∀ l ∈ b, linkHasUrl l = true) →
      ∃ res, analyze_batch b (exploreProvider j) = .ok res ∧ collectWF res = true ∧
        ∀ e ∈ batchEvents res, finalizeEventWF e = true) :
    ∃ sres, scout_events interests startDate now scoutProvider = .ok sres ∧
      sres.search_results =
        interests.enum.map (fun p => search_for_interest p.2 (scoutProvider p.1)) ∧
      (∀ i inter r, interests[i]? = some inter → scoutProvider i = .error r →
        sres.search_results[i]? = some ⟨false, inter, .arr [], some r⟩) ∧
      (∀ b r, (∀ l ∈ b, linkHasUrl l = true) →
        analyze_batch b (.error r) =
          .ok ⟨false, .arr [], .arr (taggedRejects b r), none, some r⟩) ∧
      ∃ out, generate_itinerary interests startDate endDate now
          scoutProvider exploreProvider = .ok out ∧
        (out.isNoResults = true ↔ sres.all_links.isEmpty = true) ∧
        (sres.all_links.isEmpty = true →
          out = .noResults "No event links found during search") := by
  obtain ⟨uniq, hscouteq, huniqWF⟩ := scout_events_ok interests startDate now scoutProvider hscout
  refine ⟨⟨interests.enum.map (fun p => search_for_interest p.2 (scoutProvider p.1)),
    uniq, uniq.length⟩, hscouteq, rfl, ?_, ?_, ?_⟩
  · intro i inter r hi hperr
    rw [List.getElem?_map, List.getElem?_enum, hi]
    simp [hperr, search_for_interest]
  · intro b r hurl
    exact analyze_batch_fail b (.error r) r hurl (Or.inl rfl)
  · by_cases hempty : uniq.isEmpty = true
    · refine ⟨.noResults "No event links found during search", ?_, ?_, fun _ => rfl⟩
      · unfold generate_itinerary
        simp only [bind, Except.bind]
        rw [hscouteq]
        dsimp only
        rw [if_pos hempty]
        rfl
      · simp [FinalOutcome.isNoResults, hempty]
    · have hneq : uniq ≠ [] := by
        intro hEq
        rw [hEq] at hempty
        simp at hempty
      have hok : ∀ j b, (chunks5 uniq)[j]? = some b →
          ∃ res, analyze_batch b (exploreProvider j) = .ok res ∧ collectWF res = true ∧
            ∀ e ∈ batchEvents res, finalizeEventWF e = true := by
        intro j b hb
        exact hexp j b
          (fun l hl => linkHasUrl_of_scoutWF l (huniqWF l (chunks5_mem uniq j b hb l hl)))
      obtain ⟨final, hfin, hfsucc, hfWF⟩ := explore_links_ok uniq exploreProvider hneq hok
      have hsortOK : ∀ e ∈ final.events, sortTimeOk e = true := by
        intro e he
        have hz := hfWF e he
        simp only [finalizeEventWF, Bool.and_eq_true] at hz
        exact hz.2
      obtain ⟨sorted, hsort, hperm⟩ := sortEvents_perm final.events hsortOK
      have hcovWF : ∀ e ∈ sorted, covEventWF e = true := fun e he =>
        covEventWF_of_finalize e (hfWF e (hperm.subset he))
      obtain ⟨range, cov, hr, hcov, _, _, _, _, _, _⟩ :=
        analyze_event_coverage_ok sorted startDate endDate dS dE hds hde hmax hcovWF
      refine ⟨.done sorted cov uniq.length
        (interests.enum.map (fun p => search_for_interest p.2 (scoutProvider p.1))).length
        final.total_analyzed final.total_events final.rejected.length, ?_, ?_, ?_⟩
      · unfold generate_itinerary
        simp only [bind, Except.bind]
        rw [hscouteq]
        dsimp only
        rw [if_neg hempty]
        rw [hfin]
        dsimp only
        rw [hsort]
        dsimp only
        rw [hcov]
        rfl
      · simp [FinalOutcome.isNoResults, hempty]
      · intro hcontra
        exact absurd hcontra hempty

theorem C8_partial_failures_complete_witness :
    ∃ sres, scout_events ["music", "art"] "2026-01-01" "2026-01-01T00:00:00" provScout =
        .ok sres ∧
      sres.search_results = (["music", "art"] : List String).enum.map
        (fun p => search_for_interest p.2 (provScout p.1)) ∧
      (∀ i inter r, (["music", "art"] : List String)[i]? = some inter →
        provScout i = .error r →
        sres.search_results[i]? = some ⟨false, inter, .arr [], some r⟩) ∧
      (∀ b r, (∀ l ∈ b, linkHasUrl l = true) →
        analyze_batch b (.error r) =
          .ok ⟨false, .arr [], .arr (taggedRejects b r), none, some r⟩) ∧
      ∃ out, generate_itinerary ["music", "art"] "2026-01-01" "2026-01-03"
          "2026-01-01T00:00:00" provScout provGood = .ok out ∧
        (out.isNoResults = true ↔ sres.all_links.isEmpty = true) ∧
        (sres.all_links.isEmpty = true →
          out = .noResults "No event links found during search") :=
  C8_partial_failures_complete ["music", "art"] "2026-01-01" "2026-01-03"
    "2026-01-01T00:00:00" provScout provGood ⟨2026, 1, 1⟩ ⟨2026, 1, 3⟩ rfl rfl
    (by decide) (by decide)
    (fun j b hurl =>
      ⟨⟨true, .arr [eventE], .arr [], some (.num "1"), none⟩, rfl, rfl, by decide⟩)
